import Mathlib

/-!
Verification development for the `aoo-js` repository (AOO "Audio over OSC"
source implementation, `src/aoo-source.js`).

The JavaScript source is shallowly embedded below:

* JS `Buffer`s become `List Nat` of byte values (each element is read
  modulo 256, matching `Uint8Array` storage);
* JS strings become `List Nat` of character codes where they travel through
  buffers, and Lean `String` where they are only used as map keys /
  address templates;
* the dynamically typed OSC argument values (number / string / Buffer /
  boolean / null / BigInt) become the inductive `OscVal`;
* fallible Node buffer operations (`writeInt32BE`, `writeUInt16BE`,
  `writeBigUInt64BE`, `Buffer.alloc`, `Buffer.write`, `readInt32BE`,
  `readFloatBE` out-of-bounds) become `Except Unit` / `Option` results;
* audio samples are an abstract type parameter `Sample` together with the
  4-byte big-endian float serialization `floatBE : Option Sample → List Nat`
  (`Option` because the interleaving loop can read past the end of the
  `right` array, pushing JS `undefined`); IEEE-754 bit patterns themselves
  are not interpreted.

Modelling boundaries for JS dynamic conversions (none of which are
exercised by the protocol paths proved below, and none of which any
theorem's truth depends on): `ToNumber` of non-integral numeric strings,
of Buffers and of floats is modelled as NaN (`none`); `BigInt(...)` of a
float is modelled as throwing; stringification of a float in a template
literal is modelled as an opaque placeholder.
-/

namespace Aoo

/-- `Math.ceil(n / 4) * 4` for a natural number, the OSC 4-byte padding rule. -/
def pad4 (n : Nat) : Nat := ((n + 3) / 4) * 4

/-- `Math.ceil(x / 4) * 4` for an integer offset (blob parsing can drive
offsets negative, and `Math.ceil` rounds toward +∞, i.e. floor division of
`x + 3`). -/
def pad4I (x : Int) : Int := ((x + 3).fdiv 4) * 4

/-- Read one byte of a buffer: `Uint8Array` storage keeps values in 0..255. -/
def byteAt (buf : List Nat) (i : Nat) : Nat := buf.getD i 0 % 256

/-- `List.replicate n 0`, the content of a fresh `Buffer.alloc`. -/
def zeros (n : Nat) : List Nat := List.replicate n 0

/-- The bytes written by `buf.writeInt32BE(n)` for an in-range integer `n`:
two's complement, big-endian. -/
def i32Bytes (n : Int) : List Nat :=
  let u : Nat := (n % 4294967296).toNat
  [u / 16777216, u / 65536 % 256, u / 256 % 256, u % 256]

/-- The bytes written by `buf.writeBigUInt64BE(n)` for `0 ≤ n < 2^64`. -/
def u64Bytes (n : Nat) : List Nat :=
  [n / 72057594037927936 % 256, n / 281474976710656 % 256,
   n / 1099511627776 % 256, n / 4294967296 % 256,
   n / 16777216 % 256, n / 65536 % 256, n / 256 % 256, n % 256]

/-- `buf.readInt32BE(offset)`: `none` models the `ERR_OUT_OF_RANGE` throw
when the four bytes `offset .. offset+3` are not all inside the buffer
(including negative offsets). -/
def readInt32BE (buf : List Nat) (off : Int) : Option Int :=
  if 0 ≤ off ∧ off + 4 ≤ (buf.length : Int) then
    let i := off.toNat
    let b0 := byteAt buf i
    some ((if 128 ≤ b0 then (b0 : Int) - 256 else (b0 : Int)) * 16777216 +
      byteAt buf (i + 1) * 65536 + byteAt buf (i + 2) * 256 + byteAt buf (i + 3))
  else none

/-- `buf.readFloatBE(offset)` with the same bounds behaviour as
`readInt32BE`; the float value is kept opaque as its four raw bytes. -/
def readFloatBytes (buf : List Nat) (off : Int) : Option (List Nat) :=
  if 0 ≤ off ∧ off + 4 ≤ (buf.length : Int) then
    let i := off.toNat
    some [byteAt buf i, byteAt buf (i + 1), byteAt buf (i + 2), byteAt buf (i + 3)]
  else none

/-- `buf.indexOf(target, start)` on a byte buffer: a negative start counts
from the end (clamped to 0), a start at or past the end finds nothing, and
the result is `-1` when the byte is absent. -/
def jsBufIndexOf (buf : List Nat) (target : Nat) (start : Int) : Int :=
  if (buf.length : Int) ≤ start then -1
  else
    let k : Nat := if start < 0 then (max ((buf.length : Int) + start) 0).toNat else start.toNat
    match (buf.drop k).findIdx? (fun b => b % 256 == target) with
    | some j => (k + j : Nat)
    | none => -1

/-- `buf.toString('ascii', start, finish)`: clamp the range as Node does
(`start ≤ 0 ↦ 0`, `finish > length ↦ length`, empty when `finish ≤ start`)
and strip the high bit of every byte. -/
def jsToStringAscii (buf : List Nat) (start finish : Int) : List Nat :=
  let s : Int := if start ≤ 0 then 0 else start
  let e : Int := if (buf.length : Int) < finish then (buf.length : Int) else finish
  if e ≤ s then [] else ((buf.drop s.toNat).take (e - s).toNat).map (· % 128)

/-- `buf.slice(start, finish)` (`subarray` semantics): negative indices are
relative to the end, both clamped to `[0, length]`. -/
def jsSlice (buf : List Nat) (start finish : Int) : List Nat :=
  let len : Int := buf.length
  let s : Int := if start < 0 then max (len + start) 0 else min start len
  let e : Int := if finish < 0 then max (len + finish) 0 else min finish len
  if e ≤ s then [] else (buf.drop s.toNat).take (e - s).toNat

/-- Character codes of a Lean string (used for JS string literals such as
OSC addresses). -/
def strBytes (s : String) : List Nat := s.toList.map Char.toNat

/-- `haystack.includes(needle)` on code sequences. -/
def containsSeq (haystack needle : List Nat) : Bool :=
  needle.isPrefixOf haystack ||
    match haystack with
    | [] => false
    | _ :: t => containsSeq t needle

/-- A dynamically-typed JS value as it appears in OSC argument positions:
integer numbers, floats (opaque raw bytes from `readFloatBE`), strings
(char codes), Buffers, booleans, `null`, and BigInt. -/
inductive OscVal where
  | vInt (n : Int)
  | vFloat (bs : List Nat)
  | vStr (bs : List Nat)
  | vBlob (bs : List Nat)
  | vBool (b : Bool)
  | vNull
  | vBig (n : Int)
  deriving Repr, DecidableEq

/-- JS truthiness of an `OscVal`. A float is falsy exactly when it is ±0 or
NaN, which is decidable from its IEEE-754 bytes (zero exponent and mantissa,
or all-ones exponent with non-zero mantissa). -/
def jsTruthy : OscVal → Bool
  | .vInt n => n != 0
  | .vFloat bs =>
    let b0 := byteAt bs 0
    let b1 := byteAt bs 1
    let e := (b0 % 128) * 2 + b1 / 128
    let m := (b1 % 128) * 65536 + byteAt bs 2 * 256 + byteAt bs 3
    !((e == 0 && m == 0 && (b0 == 0 || b0 == 128)) || (e == 255 && m != 0))
  | .vStr bs => bs != []
  | .vBlob _ => true
  | .vBool b => b
  | .vNull => false
  | .vBig n => n != 0

/-- Parse an ASCII digit string (optionally signed) to an integer. -/
def parseDigits : List Nat → Option Nat
  | [] => none
  | [d] => if 48 ≤ d ∧ d ≤ 57 then some (d - 48) else none
  | d :: t => match parseDigits t, (if 48 ≤ d ∧ d ≤ 57 then some (d - 48) else none) with
    | some r, some hd => some (hd * 10 ^ t.length + r)
    | _, _ => none

/-- JS `ToNumber` restricted to integral results; `none` stands for NaN.
Integer-literal strings are parsed; non-integral numeric strings, Buffers
and floats are modelled as NaN, and the empty string is 0 (see the module
comment for this boundary). BigInt is not covered here because `ToNumber`
of a BigInt throws, which callers handle separately. -/
def jsToNumInt : OscVal → Option Int
  | .vInt n => some n
  | .vBool true => some 1
  | .vBool false => some 0
  | .vNull => some 0
  | .vStr [] => some 0
  | .vStr (45 :: t) => (parseDigits t).map (fun n => -(n : Int))
  | .vStr s => (parseDigits s).map (fun n => (n : Int))
  | .vFloat _ => none
  | .vBlob _ => none
  | .vBig _ => none

/-- `BigInt(x)`: `none` models a throw. Integer numbers, booleans and
digit strings convert; `null`, floats and non-numeric values throw
(Buffers stringify first — modelled for ASCII digit contents only). -/
def jsBigIntOfVal : OscVal → Option Int
  | .vInt n => some n
  | .vBool true => some 1
  | .vBool false => some 0
  | .vNull => none
  | .vStr [] => some 0
  | .vStr (45 :: t) => (parseDigits t).map (fun n => -(n : Int))
  | .vStr s => (parseDigits s).map (fun n => (n : Int))
  | .vFloat _ => none
  | .vBlob (45 :: t) => (parseDigits t).map (fun n => -(n : Int))
  | .vBlob s => (parseDigits s).map (fun n => (n : Int))
  | .vBig n => some n

/-- Template-literal stringification `${v}` (floats are a modelling
boundary, see module comment; decoded values in the proofs are integers). -/
def jsToStr : OscVal → String
  | .vInt n => toString n
  | .vFloat _ => "<float>"
  | .vStr bs => String.mk (bs.map Char.ofNat)
  | .vBlob bs => String.mk (bs.map Char.ofNat)
  | .vBool true => "true"
  | .vBool false => "false"
  | .vNull => "null"
  | .vBig n => toString n

/-- A NUL-terminated string block padded with zeros to a multiple of four
bytes, as `_buildOSCMessage` produces for the address, the type-tag string
and each `s` argument (`Buffer.alloc` + `write(str, 0, 'ascii')`). -/
def strBlock (s : List Nat) : List Nat :=
  s.map (· % 256) ++ zeros (pad4 (s.length + 1) - s.length)

/-- Encoding of a single OSC argument by `_buildOSCMessage`'s `switch`.
Tags are character codes (105 = i, 115 = s, 98 = b, 116 = t, 78/84/70 =
N/T/F). `Except.error` models the Node exceptions: out-of-int32-range for
`i`, a non-string value for `s` (`Buffer.alloc(NaN)` / `write` throw), a
non-Buffer for `b`, a non-BigInt or out-of-uint64-range value for `t`.
`ToNumber` results of NaN pass `checkInt` (NaN comparisons are false) and
write zero bytes. Unknown tags and N/T/F emit no bytes. -/
def encodeArg : Nat × OscVal → Except Unit (List Nat)
  | (105, .vBig _) => .error ()
  | (105, v) =>
    match jsToNumInt v with
    | none => .ok [0, 0, 0, 0]
    | some n =>
      if 2147483647 < n ∨ n < -2147483648 then .error () else .ok (i32Bytes n)
  | (115, .vStr s) => .ok (strBlock s)
  | (115, _) => .error ()
  | (98, .vBlob b) =>
    .ok (i32Bytes b.length ++ b.map (· % 256) ++ zeros (pad4 b.length - b.length))
  | (98, _) => .error ()
  | (116, .vBig n) =>
    if 0 ≤ n ∧ n < 18446744073709551616 then .ok (u64Bytes n.toNat) else .error ()
  | (116, _) => .error ()
  | _ => .ok []

/-- `_buildOSCMessage(address, args)`: address block, type-tag block
(`','` followed by the tag characters), then the encoded arguments. -/
def buildOSCMessage (address : List Nat) (args : List (Nat × OscVal)) :
    Except Unit (List Nat) := do
  let argBufs ← args.mapM encodeArg
  .ok (strBlock address ++ strBlock (44 :: args.map Prod.fst) ++ argBufs.flatten)

/-- The argument loop of `_parseOscArgs`: one iteration per type-tag
character, with the running offset as a JS number (an `Int`, since blob
sizes are signed and can move the offset backwards). `break` on
`offset >= buf.length` returns the arguments accumulated so far;
`Except.error` models the `readInt32BE`/`readFloatBE` bounds throw. -/
def parseLoop (buf : List Nat) : List Nat → Int → List OscVal →
    Except Unit (List OscVal)
  | [], _, acc => .ok acc.reverse
  | tag :: rest, off, acc =>
    if (buf.length : Int) ≤ off then .ok acc.reverse
    else if tag = 105 then
      match readInt32BE buf off with
      | some v => parseLoop buf rest (off + 4) (.vInt v :: acc)
      | none => .error ()
    else if tag = 102 then
      match readFloatBytes buf off with
      | some bs => parseLoop buf rest (off + 4) (.vFloat bs :: acc)
      | none => .error ()
    else if tag = 115 then
      let strEnd := jsBufIndexOf buf 0 off
      parseLoop buf rest (pad4I (strEnd + 1)) (.vStr (jsToStringAscii buf off strEnd) :: acc)
    else if tag = 98 then
      match readInt32BE buf off with
      | some size =>
        parseLoop buf rest (pad4I (off + 4 + size))
          (.vBlob (jsSlice buf (off + 4) (off + 4 + size)) :: acc)
      | none => .error ()
    else if tag = 78 then parseLoop buf rest off (.vNull :: acc)
    else if tag = 84 then parseLoop buf rest off (.vBool true :: acc)
    else if tag = 70 then parseLoop buf rest off (.vBool false :: acc)
    else parseLoop buf rest off acc

/-- `_parseOscArgs(buf, addressEnd)`: skip the padded address, find the
type-tag terminator (`indexOf` from the padded offset, empty result if
absent or if the offset is already past the end), then run the tag loop. -/
def parseOscArgs (buf : List Nat) (addressEnd : Nat) : Except Unit (List OscVal) :=
  if buf.length ≤ pad4 (addressEnd + 1) then .ok []
  else if jsBufIndexOf buf 0 (pad4 (addressEnd + 1) : Int) = -1 then .ok []
  else
    parseLoop buf
      (jsToStringAscii buf ((pad4 (addressEnd + 1) : Int) + 1)
        (jsBufIndexOf buf 0 (pad4 (addressEnd + 1) : Int)))
      (pad4I (jsBufIndexOf buf 0 (pad4 (addressEnd + 1) : Int) + 1)) []

/-- `_buildDataMessage(sink, audioData)`: the AOO v2 binary audio frame.
Byte 0 is `kAooMsgTypeSink | kAooBinMsgDomainBit = 0x81`, byte 1 the data
command 0, bytes 2/3 the low 8 bits of sink and source ids, bytes 4-7 the
stream id (`writeInt32BE` of whatever JS value is stored — `ToNumber`,
throwing only when the result is a number outside int32 range), bytes 8-11
the sequence, bytes 12-13 zero, bytes 14-15 the payload length
(`writeUInt16BE` throws when the length exceeds 65535), then the payload.
`streamIdBytes` is the `writeInt32BE(this.streamId, ...)` step. -/
def streamIdBytes : OscVal → Except Unit (List Nat)
  | .vBig _ => .error ()
  | v =>
    match jsToNumInt v with
    | none => .ok [0, 0, 0, 0]
    | some n =>
      if 2147483647 < n ∨ n < -2147483648 then .error () else .ok (i32Bytes n)

/-- Continuation of `buildDataMessage` (defined just below) after the
stream-id write succeeded. -/
def dataMessageRest (sinkId sourceId : Int) (sNum : List Nat) (sequence : Nat)
    (audioData : List Nat) : Except Unit (List Nat) :=
  if 2147483647 < (sequence : Int) then .error ()
  else if 65535 < audioData.length then .error ()
  else
    .ok ([129, 0, (sinkId % 256).toNat, (sourceId % 256).toNat] ++ sNum ++
      i32Bytes sequence ++ [0, 0] ++
      [audioData.length / 256 % 256, audioData.length % 256] ++ audioData)

def buildDataMessage (sinkId sourceId : Int) (streamId : OscVal) (sequence : Nat)
    (audioData : List Nat) : Except Unit (List Nat) :=
  match streamIdBytes streamId with
  | .error e => .error e
  | .ok sNum => dataMessageRest sinkId sourceId sNum sequence audioData

/-- A registered sink: `{ host, port, sinkId, active: true }`. -/
structure Sink where
  host : String
  port : Nat
  sinkId : Int
  active : Bool
  deriving Repr, DecidableEq

/-- The sink registry key `` `${host}:${port}:${sinkId}` ``. -/
def sinkKey (host : String) (port : Nat) (sinkId : Int) : String :=
  host ++ ":" ++ toString port ++ ":" ++ toString sinkId

/-- JS `Map.set`: replace in place when the key exists (keeping insertion
order), otherwise append. -/
def mapSet : List (String × Sink) → String → Sink → List (String × Sink)
  | [], k, v => [(k, v)]
  | (k0, v0) :: t, k, v =>
    if k0 = k then (k, v) :: t else (k0, v0) :: mapSet t k v

/-- JS `Map.has`. -/
def mapHas (m : List (String × Sink)) (k : String) : Bool :=
  m.any (fun kv => kv.1 == k)

/-- The mutable state of an `AooSource` instance (socket handle omitted:
the transport is an external collaborator; sends appear as events). -/
structure AooState (Sample : Type) where
  channels : Nat
  sampleRate : Nat
  blockSize : Nat
  sourceId : Int
  localPort : Nat
  sinks : List (String × Sink)
  sequence : Nat
  streamId : OscVal
  isStreaming : Bool
  formatId : Nat
  sinkVersion : OscVal
  startSent : Bool
  detectedSampleRate : Option Nat
  sampleBuffer : List (Option Sample)

/-- A datagram handed to `socket.send(bytes, port, host)`. -/
inductive Event where
  | dgram (host : String) (port : Nat) (bytes : List Nat)
  deriving Repr, DecidableEq

/-- Bytes of an emitted datagram. -/
def Event.bytes : Event → List Nat
  | .dgram _ _ b => b

/-- Destination host of an emitted datagram. -/
def Event.host : Event → String
  | .dgram h _ _ => h

/-- Destination port of an emitted datagram. -/
def Event.port : Event → Nat
  | .dgram _ p _ => p

/-- The constructor state for given options, with `now0` standing for the
`Date.now()` call that seeds the stream id (masked to 31 bits). -/
def initState (Sample : Type) (channels sampleRate blockSize : Nat)
    (sourceId : Int) (localPort : Nat) (now0 : Nat) : AooState Sample :=
  { channels := channels, sampleRate := sampleRate, blockSize := blockSize
    sourceId := sourceId, localPort := localPort, sinks := []
    sequence := 0, streamId := .vInt ((now0 % 2147483648 : Nat) : Int)
    isStreaming := false, formatId := 0, sinkVersion := .vStr (strBytes "2.0")
    startSent := false, detectedSampleRate := none, sampleBuffer := [] }

variable {Sample : Type}

/-- `addSink(host, port, sinkId)`. -/
def addSink (s : AooState Sample) (host : String) (port : Nat) (sinkId : Int) :
    AooState Sample :=
  { s with sinks :=
      mapSet s.sinks (sinkKey host port sinkId) ⟨host, port, sinkId, true⟩ }

/-- `start()`: idempotent; when not yet streaming it resets the sequence,
clears the sample buffer and the announcement flag. -/
def start (s : AooState Sample) : AooState Sample :=
  if s.isStreaming then s
  else { s with
    isStreaming := true
    sequence := 0
    sampleBuffer := []
    startSent := false
    detectedSampleRate := none }

/-- `stop()`: clears the streaming flag only. -/
def stop (s : AooState Sample) : AooState Sample :=
  { s with isStreaming := false }

/-- `_setSampleRate(newRate)`. -/
def setSampleRate (s : AooState Sample) (newRate : Nat) : AooState Sample :=
  if s.sampleRate ≠ newRate then
    { s with sampleRate := newRate, formatId := s.formatId + 1 }
  else s

/-- The argument list of the `/start` OSC message (`_sendStartOSC`),
including the `sinkVersion || '2.0'` fallback, the `'pcm'` codec name, the
4-byte float32 extension blob, a zero BigInt timetag, and the integer
`sampleRate / 10` reblock size (exact for the stored natural number). -/
def startArgs (s : AooState Sample) : List (Nat × OscVal) :=
  [(105, .vInt s.sourceId),
   (115, if jsTruthy s.sinkVersion then s.sinkVersion else .vStr (strBytes "2.0")),
   (105, s.streamId),
   (105, .vInt (s.sequence : Int)),
   (105, .vInt (s.formatId : Int)),
   (105, .vInt (s.channels : Int)),
   (105, .vInt (s.sampleRate : Int)),
   (105, .vInt (s.blockSize : Int)),
   (115, .vStr (strBytes "pcm")),
   (98, .vBlob [0, 0, 0, 3]),
   (116, .vBig 0),
   (105, .vInt ((s.sampleRate / 10 : Nat) : Int)),
   (105, .vInt 0),
   (78, .vNull),
   (78, .vNull),
   (105, .vInt 0)]

/-- `_sendStartOSC(host, port, sinkId)`: build the `/aoo/sink/<id>/start`
message and emit it; a build exception propagates to the caller. -/
def sendStartOSC (s : AooState Sample) (host : String) (port : Nat) (sinkId : Int) :
    Except Unit Event :=
  (buildOSCMessage (strBytes ("/aoo/sink/" ++ toString sinkId ++ "/start"))
    (startArgs s)).map (Event.dgram host port)

/-- `_sendStartToAllSinks()`: one `/start` per active sink, then set the
announcement flag (not set if a send throws mid-loop). -/
def sendStartToAllSinks (s : AooState Sample) :
    Except Unit (AooState Sample × List Event) :=
  match (s.sinks.filter (fun kv => kv.2.active)).mapM
      (fun kv => sendStartOSC s kv.2.host kv.2.port kv.2.sinkId) with
  | .error e => .error e
  | .ok evs => .ok ({ s with startSent := true }, evs)

/-- The format-change loop of `updateSampleRate`: one `/start` per active
sink from the already-updated state (an exception aborts the loop and
propagates). -/
def rebroadcastStart (s1 : AooState Sample) :
    Except Unit (AooState Sample × List Event) :=
  match (s1.sinks.filter (fun kv => kv.2.active)).mapM
      (fun kv => sendStartOSC s1 kv.2.host kv.2.port kv.2.sinkId) with
  | .error e => .error e
  | .ok evs => .ok (s1, evs)

/-- `updateSampleRate(newRate)`. -/
def updateSampleRate (s : AooState Sample) (newRate : Nat) :
    Except Unit (AooState Sample × List Event) :=
  if ¬s.startSent then .ok (setSampleRate s newRate, [])
  else if s.sampleRate ≠ newRate then
    rebroadcastStart { s with sampleRate := newRate, formatId := s.formatId + 1 }
  else .ok (s, [])

/-- The sample-interleaving loop of `sendAudio`: `left[i]` then `right[i]`
for each `i < left.length`; JS reads `right[i] = undefined` (`none`) past
the end of `right`, and never reads `right` beyond `left.length`. -/
def interleaveJS : List Sample → List Sample → List (Option Sample)
  | [], _ => []
  | l :: ls, rs => some l :: rs.head? :: interleaveJS ls rs.tail

/-- Fuel-indexed version of the drain loop below; the fuel only bounds the
number of iterations (each iteration removes at least one element when it
runs, so an initial fuel of `buf.length` never runs out). -/
def drainBlocksGo {α : Type} (n : Nat) : Nat → List α → List (List α) × List α
  | 0, buf => ([], buf)
  | fuel + 1, buf =>
    if 0 < n ∧ n ≤ buf.length then
      match drainBlocksGo n fuel (buf.drop n) with
      | (bs, rest) => (buf.take n :: bs, rest)
    else ([], buf)

/-- The `while (length >= n) splice(0, n)` drain loop: full blocks from the
head, plus the remainder (for `n = 0` the source loop would not terminate;
the model returns no blocks in that vacuous case). -/
def drainBlocks {α : Type} (n : Nat) (buf : List α) : List (List α) × List α :=
  drainBlocksGo n buf.length buf

theorem drainBlocksGo_nil {α : Type} (n : Nat) (fuel : Nat) :
    drainBlocksGo n fuel ([] : List α) = ([], []) := by
  cases fuel with
  | zero => rfl
  | succ m =>
    unfold drainBlocksGo
    rw [if_neg (by simp; omega)]

theorem drainBlocksGo_fuel {α : Type} (n : Nat) :
    ∀ (fuel fuel' : Nat) (buf : List α), buf.length ≤ fuel → buf.length ≤ fuel' →
      drainBlocksGo n fuel buf = drainBlocksGo n fuel' buf
  | 0, fuel', buf, h, _ => by
    have hb : buf = [] := List.length_eq_zero.mp (by omega)
    subst hb
    rw [drainBlocksGo_nil, drainBlocksGo_nil]
  | fuel + 1, 0, buf, _, h' => by
    have hb : buf = [] := List.length_eq_zero.mp (by omega)
    subst hb
    rw [drainBlocksGo_nil, drainBlocksGo_nil]
  | fuel + 1, fuel' + 1, buf, h, h' => by
    unfold drainBlocksGo
    split
    · rename_i hc
      rw [drainBlocksGo_fuel n fuel fuel' (buf.drop n)
        (by simp only [List.length_drop]; omega)
        (by simp only [List.length_drop]; omega)]
    · rfl

/-- The defining equation of the drain loop. -/
theorem drainBlocks_eq {α : Type} (n : Nat) (buf : List α) :
    drainBlocks n buf =
      if 0 < n ∧ n ≤ buf.length then
        (buf.take n :: (drainBlocks n (buf.drop n)).1, (drainBlocks n (buf.drop n)).2)
      else ([], buf) := by
  by_cases hc : 0 < n ∧ n ≤ buf.length
  · rw [if_pos hc]
    obtain ⟨m, hm⟩ : ∃ m, buf.length = m + 1 := ⟨buf.length - 1, by omega⟩
    have h1 : drainBlocks n buf = drainBlocksGo n (m + 1) buf := by
      unfold drainBlocks
      rw [hm]
    rw [h1]
    unfold drainBlocksGo
    rw [if_pos hc]
    rw [drainBlocksGo_fuel n m (buf.drop n).length (buf.drop n)
      (by simp only [List.length_drop]; omega) (Nat.le_refl _)]
    rcases hd : drainBlocks n (buf.drop n) with ⟨bs, rest⟩
    unfold drainBlocks at hd
    rw [hd]
  · rw [if_neg hc]
    cases hm : buf.length with
    | zero =>
      have hb : buf = [] := List.length_eq_zero.mp hm
      subst hb
      rfl
    | succ m =>
      have h1 : drainBlocks n buf = drainBlocksGo n (m + 1) buf := by
        unfold drainBlocks
        rw [hm]
      rw [h1]
      unfold drainBlocksGo
      rw [if_neg hc]

/-- `_sendBlock(samples)` for one drained block: serialize each sample to
four big-endian float bytes (`floatBE`, kept abstract), build one data
message per registered sink (all sinks, not only active ones), then
increment the sequence with wraparound at `0x7FFFFFFF` inclusive. -/
def sendBlock (floatBE : Option Sample → List Nat) (s : AooState Sample)
    (samples : List (Option Sample)) :
    Except Unit (AooState Sample × List Event) :=
  match s.sinks.mapM (fun kv =>
      (buildDataMessage kv.2.sinkId s.sourceId s.streamId s.sequence
        ((samples.map floatBE).flatten)).map
        (Event.dgram kv.2.host kv.2.port)) with
  | .error e => .error e
  | .ok evs =>
    .ok ({ s with
      sequence := if 2147483647 ≤ s.sequence + 1 then 0 else s.sequence + 1 }, evs)

/-- Send each drained block in order, threading the sequence counter. -/
def sendBlocks (floatBE : Option Sample → List Nat) (s : AooState Sample) :
    List (List (Option Sample)) → Except Unit (AooState Sample × List Event)
  | [] => .ok (s, [])
  | b :: bs =>
    match sendBlock floatBE s b with
    | .error e => .error e
    | .ok (s1, ev1) =>
      match sendBlocks floatBE s1 bs with
      | .error e => .error e
      | .ok (s2, ev2) => .ok (s2, ev1 ++ ev2)

/-- The sample-rate override applied by the first `sendAudio` call:
`if (sampleRate && sampleRate !== this.sampleRate) this._setSampleRate(...)`. -/
def applyRateOverride (s : AooState Sample) : Option Nat → AooState Sample
  | some r => if r ≠ 0 ∧ r ≠ s.sampleRate then setSampleRate s r else s
  | none => s

/-- The drain-and-send tail of `sendAudio`, after the buffer has been
extended with the interleaved input. -/
def drainAndSend (floatBE : Option Sample → List Nat) (s1 : AooState Sample)
    (buf : List (Option Sample)) : Except Unit (AooState Sample × List Event) :=
  match sendBlocks floatBE
      { s1 with sampleBuffer := (drainBlocks (s1.blockSize * s1.channels) buf).2 }
      (drainBlocks (s1.blockSize * s1.channels) buf).1 with
  | .error e => .error e
  | .ok (s2, ev2) => .ok (s2, ev2)

/-- `sendAudio(left, right, sampleRate?)`: no-op unless streaming; on the
first call apply a truthy differing rate override and broadcast `/start`;
interleave the two channel arrays into the buffer; drain and send full
blocks of `blockSize * channels` samples. -/
def sendAudio (floatBE : Option Sample → List Nat) (s : AooState Sample)
    (left right : List Sample) (sr : Option Nat) :
    Except Unit (AooState Sample × List Event) :=
  if ¬s.isStreaming then .ok (s, [])
  else
    match (if ¬s.startSent then sendStartToAllSinks (applyRateOverride s sr)
      else .ok (s, [])) with
    | .error e => .error e
    | .ok (s1, ev1) =>
      match drainAndSend floatBE s1 (s1.sampleBuffer ++ interleaveJS left right) with
      | .error e => .error e
      | .ok (s2, ev2) => .ok (s2, ev1 ++ ev2)

/-- `_sendPong(host, port, msg, nullIdx)`: everything is inside one
`try`, so any decode or conversion exception yields no reply and no state
change. With at least two decoded arguments, `args[0]` is interpolated
into the pong address and `BigInt(args[1] || 0)` echoed as the first
timetag (a throwing conversion, a negative value, or an over-range
`writeBigUInt64BE` all abort silently); the second timetag is
`BigInt(Date.now()) * 1000000n`. -/
def sendPong (s : AooState Sample) (host : String) (port : Nat)
    (msg : List Nat) (nullIdx : Nat) (now : Nat) : List Event :=
  match parseOscArgs msg nullIdx with
  | .error _ => []
  | .ok args =>
    if 2 ≤ args.length then
      match jsBigIntOfVal
          (if jsTruthy (args.getD 1 .vNull) then args.getD 1 .vNull else .vInt 0) with
      | none => []
      | some t1 =>
        match buildOSCMessage
            (strBytes ("/aoo/sink/" ++ jsToStr (args.getD 0 .vNull) ++ "/pong"))
            [(105, .vInt s.sourceId), (116, .vBig t1),
             (116, .vBig ((now : Int) * 1000000))] with
        | .error _ => []
        | .ok bytes => [Event.dgram host port bytes]
    else []

/-- The body of the `/invite` branch of `_handleMessage` (everything is
inside one `try`, so the result is a plain pair: an exception from the
`/start` send is caught, leaving the state mutations made before it and
skipping both the send and the `start()` call). -/
def inviteHandler (s : AooState Sample) (msg : List Nat) (host : String)
    (port : Nat) (nullIdx : Nat) : AooState Sample × List Event :=
  match parseOscArgs msg nullIdx with
  | .error _ => (s, [])
  | .ok args =>
    if 2 ≤ args.length then
      match sendStartOSC
          (addSink { s with
            streamId := args.getD 1 .vNull
            formatId := 0
            sequence := 0 } host port 1) host port 1 with
      | .error _ =>
        (addSink { s with
          streamId := args.getD 1 .vNull
          formatId := 0
          sequence := 0 } host port 1, [])
      | .ok ev =>
        (start (addSink { s with
          streamId := args.getD 1 .vNull
          formatId := 0
          sequence := 0 } host port 1), [ev])
    else (s, [])

/-- The body of the `/start` branch of `_handleMessage`: only the argument
decode is inside the `try`; the sink registration and the `/start` re-send
run after it, and an exception from that send propagates. -/
def startAckHandler (s : AooState Sample) (msg : List Nat) (host : String)
    (port : Nat) (nullIdx : Nat) : Except Unit (AooState Sample × List Event) :=
  match
    (match parseOscArgs msg nullIdx with
      | .error _ => s
      | .ok args =>
        if 2 ≤ args.length then { s with sinkVersion := args.getD 1 .vNull }
        else s) with
  | s1 =>
    match (if mapHas s1.sinks (sinkKey host port 1) then s1
      else addSink s1 host port 1) with
    | s2 =>
      match sendStartOSC s2 host port 1 with
      | .error e => .error e
      | .ok ev => .ok (s2, [ev])

/-- `_handleMessage(msg, rinfo)`: ignore binary-domain datagrams of length
≥ 4; find the address NUL; dispatch on the decoded address containing
`/invite`, `/start` or `/ping` (in that order). The invite and ping
branches swallow all exceptions; the `/start` branch swallows decode
exceptions but re-sends `/start` outside its `try`, so a failure there
propagates (`Except.error`). `now` stands for `Date.now()` during this
handler invocation. -/
def handleMessage (s : AooState Sample) (msg : List Nat) (host : String)
    (port : Nat) (now : Nat) : Except Unit (AooState Sample × List Event) :=
  if 4 ≤ msg.length ∧ byteAt msg 0 &&& 128 ≠ 0 then .ok (s, [])
  else if 0 < jsBufIndexOf msg 0 0 then
    if containsSeq (jsToStringAscii msg 0 (jsBufIndexOf msg 0 0))
        (strBytes "/invite") then
      .ok (inviteHandler s msg host port (jsBufIndexOf msg 0 0).toNat)
    else if containsSeq (jsToStringAscii msg 0 (jsBufIndexOf msg 0 0))
        (strBytes "/start") then
      startAckHandler s msg host port (jsBufIndexOf msg 0 0).toNat
    else if containsSeq (jsToStringAscii msg 0 (jsBufIndexOf msg 0 0))
        (strBytes "/ping") then
      .ok (s, sendPong s host port msg (jsBufIndexOf msg 0 0).toNat now)
    else .ok (s, [])
  else .ok (s, [])

/-- A public operation on the source (the `now` of `recv` stands for the
wall clock during that dispatch). -/
inductive Op (Sample : Type) where
  | start
  | stop
  | sendAudio (left right : List Sample) (sr : Option Nat)
  | updateSampleRate (r : Nat)
  | addSink (host : String) (port : Nat) (sinkId : Int)
  | recv (msg : List Nat) (host : String) (port : Nat) (now : Nat)

/-- One step of the source: runs the corresponding method, returning the
new state and emitted datagrams, or an uncaught exception. -/
def step (floatBE : Option Sample → List Nat) (s : AooState Sample) :
    Op Sample → Except Unit (AooState Sample × List Event)
  | .start => .ok (start s, [])
  | .stop => .ok (stop s, [])
  | .sendAudio l r sr => sendAudio floatBE s l r sr
  | .updateSampleRate r => updateSampleRate s r
  | .addSink h p i => .ok (addSink s h p i, [])
  | .recv msg h p now => handleMessage s msg h p now

/-- Run a list of operations in order, concatenating emitted datagrams. -/
def run (floatBE : Option Sample → List Nat) (s : AooState Sample) :
    List (Op Sample) → Except Unit (AooState Sample × List Event)
  | [] => .ok (s, [])
  | op :: ops =>
    match step floatBE s op with
    | .error e => .error e
    | .ok (s1, ev1) =>
      match run floatBE s1 ops with
      | .error e => .error e
      | .ok (s2, ev2) => .ok (s2, ev1 ++ ev2)

/-! ### Shared byte-level lemmas -/

theorem byteAt_cons_zero (a : Nat) (l : List Nat) : byteAt (a :: l) 0 = a % 256 := rfl

theorem byteAt_cons_succ (a : Nat) (l : List Nat) (n : Nat) :
    byteAt (a :: l) (n + 1) = byteAt l n := rfl

theorem i32Bytes_length (n : Int) : (i32Bytes n).length = 4 := rfl

theorem byteAt_append_right (l l' : List Nat) (n : Nat) (h : l.length ≤ n) :
    byteAt (l ++ l') n = byteAt l' (n - l.length) := by
  unfold byteAt
  rw [List.getD_append_right _ _ _ _ h]

theorem byteAt_append_left (l l' : List Nat) (n : Nat) (h : n < l.length) :
    byteAt (l ++ l') n = byteAt l n := by
  unfold byteAt
  rw [List.getD_append _ _ _ _ h]

/-! ### C2 — binary frame header -/

theorem streamIdBytes_length (v : OscVal) (bs : List Nat)
    (h : streamIdBytes v = .ok bs) : bs.length = 4 := by
  rcases v with n | f | s | b | b | _ | n <;>
    simp only [streamIdBytes] at h <;>
    try (split at h)
  all_goals first
    | (cases h; rfl)
    | cases h
    | (split at h
       · cases h
       · cases h; rfl)

/-- C2, amended: every successfully built audio datagram has byte 0 =
0x81, byte 1 = 0, bytes 12–13 zero and bytes 14–15 equal to the payload
length exactly, and a successful build implies the payload is at most
65535 bytes; a payload longer than 65535 bytes makes `writeUInt16BE`
throw (no datagram), rather than silently truncating. -/
theorem frameHeader_amended (sinkId sourceId : Int) (streamId : OscVal)
    (sequence : Nat) (audioData : List Nat) :
    (∀ msg, buildDataMessage sinkId sourceId streamId sequence audioData = .ok msg →
      audioData.length ≤ 65535 ∧
      byteAt msg 0 = 129 ∧ byteAt msg 1 = 0 ∧
      byteAt msg 12 = 0 ∧ byteAt msg 13 = 0 ∧
      byteAt msg 14 * 256 + byteAt msg 15 = audioData.length) ∧
    (65535 < audioData.length →
      buildDataMessage sinkId sourceId streamId sequence audioData = .error ()) := by
  constructor
  · intro msg hok
    unfold buildDataMessage at hok
    split at hok
    · cases hok
    · rename_i sNum hs
      have hlen4 : sNum.length = 4 := streamIdBytes_length streamId sNum hs
      unfold dataMessageRest at hok
      split at hok
      · cases hok
      · split at hok
        · cases hok
        · rename_i hlenle
          cases hok
          obtain ⟨b0, b1, b2, b3, hb⟩ : ∃ b0 b1 b2 b3, sNum = [b0, b1, b2, b3] := by
            rcases sNum with _ | ⟨x0, _ | ⟨x1, _ | ⟨x2, _ | ⟨x3, _ | ⟨x4, t⟩⟩⟩⟩⟩ <;>
              simp_all
          subst hb
          refine ⟨by omega, rfl, rfl, rfl, rfl, ?_⟩
          show audioData.length / 256 % 256 % 256 * 256 +
            audioData.length % 256 % 256 = audioData.length
          omega
  · intro hgt
    unfold buildDataMessage
    split
    · rename_i e he
      cases e
      rfl
    · unfold dataMessageRest
      split <;> first | rfl | omega

/-- C2, counterexample to the claim as stated: a 65536-byte payload does
not produce a datagram whose bytes 14–15 hold the low 16 bits of the
length; the encoder raises instead and no frame is emitted. -/
theorem frameHeader_counterexample :
    buildDataMessage 1 1 (OscVal.vInt 1) 0 (List.replicate 65536 0) = .error () := by
  have h : (65535 : Nat) < (List.replicate 65536 (0 : Nat)).length := by
    rw [List.length_replicate]
    omega
  have hstep : buildDataMessage 1 1 (OscVal.vInt 1) 0 (List.replicate 65536 0) =
      dataMessageRest 1 1 (i32Bytes 1) 0 (List.replicate 65536 0) := rfl
  rw [hstep]
  unfold dataMessageRest
  rw [if_neg (by decide : ¬((2147483647 : Int) < ((0 : Nat) : Int))), if_pos h]

/-- Witness for `frameHeader_amended` at a concrete frame. -/
theorem frameHeader_amended_witness :
    buildDataMessage 1 1 (OscVal.vInt 1) 0 [5, 6, 7, 8] = .ok
      ([129, 0, 1, 1] ++ i32Bytes 1 ++ i32Bytes 0 ++ [0, 0] ++ [0, 4] ++ [5, 6, 7, 8]) ∧
    byteAt ([129, 0, 1, 1] ++ i32Bytes 1 ++ i32Bytes 0 ++ [0, 0] ++ [0, 4] ++
      [5, 6, 7, 8]) 14 * 256 +
      byteAt ([129, 0, 1, 1] ++ i32Bytes 1 ++ i32Bytes 0 ++ [0, 0] ++ [0, 4] ++
        [5, 6, 7, 8]) 15 = 4 := by
  refine ⟨by rfl, ?_⟩
  have h := (frameHeader_amended 1 1 (OscVal.vInt 1) 0 [5, 6, 7, 8]).1 _ (by rfl)
  exact h.2.2.2.2.2

/-! ### C6 — decoder fail-soft behaviour -/

/-- C6, counterexample to the claim as stated: a buffer whose `,i` tag has
only two payload bytes left makes `readInt32BE` begin in bounds
(`offset = 8 < length = 10`) but straddle the end, so the decoder raises
instead of returning the arguments parsed so far. -/
theorem decodeFailsSoft_counterexample :
    parseOscArgs [47, 0, 0, 0, 44, 105, 0, 0, 1, 2] 1 = .error () := rfl

/-- C6, amended: the decoder does stop normally with the arguments parsed
so far when the type-tag terminator is absent, when the padded type-tag
offset is already at or past the buffer end, and when the running offset
reaches or passes the buffer end at the start of an argument — but a
4-byte read (`i`/`f` value or `b` size prefix) that begins strictly inside
the buffer with fewer than 4 bytes remaining raises a range error instead
of failing soft (see `decodeFailsSoft_counterexample`). -/
theorem decodeFailsSoft_amended (buf : List Nat) (addressEnd : Nat)
    (tags : List Nat) (off : Int) (acc : List OscVal) :
    (buf.length ≤ pad4 (addressEnd + 1) → parseOscArgs buf addressEnd = .ok []) ∧
    (jsBufIndexOf buf 0 (pad4 (addressEnd + 1) : Nat) = -1 →
      parseOscArgs buf addressEnd = .ok []) ∧
    ((buf.length : Int) ≤ off → parseLoop buf tags off acc = .ok acc.reverse) := by
  refine ⟨?_, ?_, ?_⟩
  · intro h
    unfold parseOscArgs
    rw [if_pos h]
  · intro h
    unfold parseOscArgs
    split <;> try rfl
    all_goals simp_all
  · intro h
    cases tags with
    | nil => rfl
    | cons t ts =>
      unfold parseLoop
      rw [if_pos h]

/-- Witness for `decodeFailsSoft_amended` at concrete truncated inputs. -/
theorem decodeFailsSoft_amended_witness :
    parseOscArgs [1, 2, 3] 3 = .ok [] ∧
    parseOscArgs [47, 0, 0, 0, 44, 105] 1 = .ok [] ∧
    parseLoop [1, 2, 3] [105] 7 [.vNull] = .ok [.vNull] := by
  refine ⟨?_, ?_, ?_⟩
  · exact (decodeFailsSoft_amended [1, 2, 3] 3 [] 0 []).1 (by decide)
  · exact (decodeFailsSoft_amended [47, 0, 0, 0, 44, 105] 1 [] 0 []).2.1 (by decide)
  · exact (decodeFailsSoft_amended [1, 2, 3] 3 [105] 7 [.vNull]).2.2 (by decide)

/-! ### C7 — dispatcher exception containment -/

/-- `Except` success as a Boolean. -/
def isOkE {α : Type} (e : Except Unit α) : Bool :=
  match e with
  | .ok _ => true
  | .error _ => false

/-- Whether a datagram reaches the `/start` branch of the dispatcher:
non-binary, address NUL found at a positive index, address containing
`/start` but not `/invite`. -/
def startBranchB (msg : List Nat) : Bool :=
  !decide (4 ≤ msg.length ∧ byteAt msg 0 &&& 128 ≠ 0) &&
  decide (0 < jsBufIndexOf msg 0 0) &&
  !containsSeq (jsToStringAscii msg 0 (jsBufIndexOf msg 0 0)) (strBytes "/invite") &&
  containsSeq (jsToStringAscii msg 0 (jsBufIndexOf msg 0 0)) (strBytes "/start")

/-- C7, amended: for every inbound datagram and every state, the handler
contains all exceptions unless the datagram reaches the `/start` branch —
the binary-ignore path, the no-address path, the `/invite` branch and the
`/ping` branch (each fully wrapped in `try`) and the unrecognized-address
path never propagate; only the `/start` branch's reply, sent outside its
`try`, can raise (see `dispatcherContainment_counterexample`). -/
theorem dispatcherContainment_amended (s : AooState Sample) (msg : List Nat)
    (host : String) (port : Nat) (now : Nat) (h : startBranchB msg = false) :
    isOkE (handleMessage s msg host port now) = true := by
  unfold handleMessage
  split
  · rfl
  · split
    · split
      · rfl
      · split
        · rename_i hnb hpos hninv hst
          rw [startBranchB] at h
          simp only [hninv, hst, Bool.not_false, Bool.and_true,
            Bool.true_and, Bool.and_eq_false_iff] at h
          rcases h with h | h <;> simp_all
        · split
          · rfl
          · rfl
    · rfl

/-- C7, counterexample to the claim as stated: from the freshly
constructed state, a `/start` datagram carrying an integer as its second
argument stores that integer as the learned sink version inside the `try`,
and the `/start` reply built after the `try` then throws while encoding
the non-string version (`Buffer.alloc(NaN)`), propagating out of the
handler. -/
theorem dispatcherContainment_counterexample :
    handleMessage (initState Unit 2 48000 256 1 9998 1000)
      [47, 115, 116, 97, 114, 116, 0, 0, 44, 105, 105, 0, 0, 0, 0, 1, 0, 0, 0, 42]
      "1.2.3.4" 9999 0 = .error () := rfl

/-- Witness for `dispatcherContainment_amended`: a `/ping` datagram is
handled without an exception. -/
theorem dispatcherContainment_amended_witness :
    isOkE (handleMessage (initState Unit 2 48000 256 1 9998 1000)
      [47, 112, 105, 110, 103, 0, 0, 0] "1.2.3.4" 9999 0) = true :=
  dispatcherContainment_amended _ _ _ _ _ (by rfl)

/-! ### Well-formed session states and `/start` message construction -/

/-- Whether a JS value is a string. -/
def isStrVal : OscVal → Bool
  | .vStr _ => true
  | _ => false

/-- A session state whose fields serialize without exceptions: the learned
sink version is a string, the stream id survives `writeInt32BE`, and the
numeric fields fit in int32. Every
state reachable by the public API from a fresh instance without hostile
inbound datagrams satisfies this. -/
def WF (s : AooState Sample) : Prop :=
  isStrVal s.sinkVersion = true ∧
  isOkE (streamIdBytes s.streamId) = true ∧
  -2147483648 ≤ s.sourceId ∧ s.sourceId ≤ 2147483647 ∧
  s.sequence ≤ 2147483647 ∧ s.formatId ≤ 2147483647 ∧
  s.channels ≤ 2147483647 ∧ s.sampleRate ≤ 2147483647 ∧
  s.blockSize ≤ 2147483647

instance (s : AooState Sample) : Decidable (WF s) := by
  unfold WF
  infer_instance

/-- The bytes an argument encodes to, when encoding succeeds. -/
def encodedOf (x : Nat × OscVal) : List Nat :=
  match encodeArg x with
  | .ok b => b
  | .error _ => []

theorem mapM_ok {α β : Type} (f : α → Except Unit β) (g : α → β) :
    ∀ l : List α, (∀ x ∈ l, f x = .ok (g x)) → l.mapM f = .ok (l.map g)
  | [], _ => rfl
  | a :: l, h => by
    rw [List.mapM_cons, h a (List.mem_cons_self a l),
      mapM_ok f g l (fun x hx => h x (List.mem_cons_of_mem a hx))]
    rfl

theorem encodedOf_eq (x : Nat × OscVal) (b : List Nat) (h : encodeArg x = .ok b) :
    encodedOf x = b := by
  unfold encodedOf
  rw [h]

theorem encodeArg_ok_of_isOk (x : Nat × OscVal) (h : isOkE (encodeArg x) = true) :
    encodeArg x = .ok (encodedOf x) := by
  unfold encodedOf
  cases h' : encodeArg x
  · rw [h'] at h
    cases h
  · rfl

theorem encodeArg_i32 (v : OscVal) : encodeArg (105, v) = streamIdBytes v := by
  cases v <;> rfl

theorem encodeArg_int (n : Int) (h1 : -2147483648 ≤ n) (h2 : n ≤ 2147483647) :
    encodeArg (105, OscVal.vInt n) = .ok (i32Bytes n) := by
  simp only [encodeArg, jsToNumInt]
  rw [if_neg (by omega)]

theorem encodeArg_big (n : Int) (h1 : 0 ≤ n) (h2 : n < 18446744073709551616) :
    encodeArg (116, OscVal.vBig n) = .ok (u64Bytes n.toNat) := by
  simp only [encodeArg]
  rw [if_pos ⟨h1, h2⟩]

theorem startArgs_encOK (s : AooState Sample) (hwf : WF s) :
    ∀ x ∈ startArgs s, isOkE (encodeArg x) = true := by
  obtain ⟨hver, hsid, hlo, hhi, hseq, hfmt, hch, hsr, hbs⟩ := hwf
  intro x hx
  simp only [startArgs, List.mem_cons, List.not_mem_nil, or_false] at hx
  have hok : ∀ n : Int, -2147483648 ≤ n → n ≤ 2147483647 →
      isOkE (encodeArg (105, .vInt n)) = true := by
    intro n h1 h2
    simp only [encodeArg, jsToNumInt]
    rw [if_neg (by omega)]
    rfl
  rcases hx with rfl | rfl | rfl | rfl | rfl | rfl | rfl | rfl | rfl | rfl | rfl |
    rfl | rfl | rfl | rfl | rfl
  · exact hok _ hlo hhi
  · rcases hv : s.sinkVersion with n | f | bs | bs | b | _ | n <;>
      rw [hv] at hver <;> simp [isStrVal] at hver ⊢ <;>
      cases hj : jsTruthy (OscVal.vStr bs) <;> simp [hj, encodeArg, isOkE]
  · rw [encodeArg_i32]
    exact hsid
  · exact hok _ (by omega) (by omega)
  · exact hok _ (by omega) (by omega)
  · exact hok _ (by omega) (by omega)
  · exact hok _ (by omega) (by omega)
  · exact hok _ (by omega) (by omega)
  · rfl
  · rfl
  · rfl
  · refine hok _ (by omega) ?_
    have : s.sampleRate / 10 ≤ s.sampleRate := Nat.div_le_self _ _
    omega
  · exact hok 0 (by omega) (by omega)
  · rfl
  · rfl
  · exact hok 0 (by omega) (by omega)

/-- The wire bytes of the `/start` message `_sendStartOSC` builds from a
well-formed state. -/
def buildStartBytes (s : AooState Sample) (sinkId : Int) : List Nat :=
  strBlock (strBytes ("/aoo/sink/" ++ toString sinkId ++ "/start")) ++
    strBlock (44 :: (startArgs s).map Prod.fst) ++
    ((startArgs s).map encodedOf).flatten

theorem sendStartOSC_ok (s : AooState Sample) (hwf : WF s) (host : String)
    (port : Nat) (sinkId : Int) :
    sendStartOSC s host port sinkId = .ok (.dgram host port (buildStartBytes s sinkId)) := by
  unfold sendStartOSC buildOSCMessage buildStartBytes
  rw [mapM_ok encodeArg encodedOf (startArgs s)
    (fun x hx => encodeArg_ok_of_isOk x (startArgs_encOK s hwf x hx))]
  rfl

/-! ### C8 — format-change idempotence -/

/-- C8: calling `updateSampleRate` with the current rate changes nothing
and sends nothing; with a different rate after `/start` was announced it
increments `formatId` by exactly one, sets the new rate and sends exactly
one `/start` (with the updated state's format) to each active registered
sink, in registry order; with a different rate before the announcement it
updates the rate and `formatId` but sends nothing. -/
theorem formatChangeIdempotence (s : AooState Sample) (r : Nat) (hwf : WF s)
    (hr : r ≤ 2147483647) (hfmt : s.formatId + 1 ≤ 2147483647) :
    (r = s.sampleRate → updateSampleRate s r = .ok (s, [])) ∧
    (r ≠ s.sampleRate → s.startSent = true →
      updateSampleRate s r = .ok
        ({ s with sampleRate := r, formatId := s.formatId + 1 },
          (s.sinks.filter (fun kv => kv.2.active)).map (fun kv =>
            Event.dgram kv.2.host kv.2.port
              (buildStartBytes { s with sampleRate := r, formatId := s.formatId + 1 }
                kv.2.sinkId)))) ∧
    (r ≠ s.sampleRate → s.startSent = false →
      updateSampleRate s r = .ok
        ({ s with sampleRate := r, formatId := s.formatId + 1 }, [])) := by
  refine ⟨?_, ?_, ?_⟩
  · intro heq
    unfold updateSampleRate
    split
    · unfold setSampleRate
      rw [if_neg (by omega)]
    · rw [if_neg (by omega)]
  · intro hne hsent
    have hwf1 : WF { s with sampleRate := r, formatId := s.formatId + 1 } := by
      obtain ⟨h1, h2, h3, h4, h5, h6, h7, h8, h9⟩ := hwf
      refine ⟨h1, h2, h3, h4, h5, ?_, h7, ?_, h9⟩
      · show s.formatId + 1 ≤ 2147483647
        omega
      · show r ≤ 2147483647
        omega
    unfold updateSampleRate rebroadcastStart
    rw [if_neg (by simp [hsent]), if_pos (by omega)]
    rw [mapM_ok _ (fun kv =>
        Event.dgram kv.2.host kv.2.port
          (buildStartBytes { s with sampleRate := r, formatId := s.formatId + 1 }
            kv.2.sinkId)) _
      (fun kv _ => sendStartOSC_ok _ hwf1 kv.2.host kv.2.port kv.2.sinkId)]
  · intro hne hnsent
    unfold updateSampleRate
    rw [if_pos (by simp [hnsent])]
    unfold setSampleRate
    rw [if_pos (by omega)]

/-- Witness for `formatChangeIdempotence` on a concrete announced state
with one active sink. -/
theorem formatChangeIdempotence_witness :
    updateSampleRate { initState Unit 2 48000 256 1 9998 1000 with
        startSent := true
        sinks := [(sinkKey "127.0.0.1" 9999 1, ⟨"127.0.0.1", 9999, 1, true⟩)] }
      44100 = .ok
      ({ initState Unit 2 48000 256 1 9998 1000 with
          startSent := true
          sinks := [(sinkKey "127.0.0.1" 9999 1, ⟨"127.0.0.1", 9999, 1, true⟩)]
          sampleRate := 44100
          formatId := 1 },
        [Event.dgram "127.0.0.1" 9999
          (buildStartBytes { initState Unit 2 48000 256 1 9998 1000 with
            startSent := true
            sinks := [(sinkKey "127.0.0.1" 9999 1, ⟨"127.0.0.1", 9999, 1, true⟩)]
            sampleRate := 44100
            formatId := 1 } 1)]) := by
  have h := (formatChangeIdempotence
    { initState Unit 2 48000 256 1 9998 1000 with
        startSent := true
        sinks := [(sinkKey "127.0.0.1" 9999 1, ⟨"127.0.0.1", 9999, 1, true⟩)] }
    44100 (by decide) (by decide) (by decide)).2.1 (by decide) rfl
  exact h

/-! ### C10 — sendAudio interleaving -/

theorem interleaveJS_length (left right : List Sample) :
    (interleaveJS left right).length = 2 * left.length := by
  induction left generalizing right with
  | nil => rfl
  | cons l ls ih =>
    simp only [interleaveJS, List.length_cons, ih, List.length_cons]
    omega

theorem interleaveJS_take (left right : List Sample) :
    interleaveJS left (right.take left.length) = interleaveJS left right := by
  induction left generalizing right with
  | nil => rfl
  | cons l ls ih =>
    cases right with
    | nil => rfl
    | cons r rs =>
      simp only [List.length_cons, List.take_succ_cons, interleaveJS,
        List.head?_cons, List.tail_cons, ih rs]

theorem interleaveJS_getD (left right : List Sample) (i : Nat) (h : i < left.length) :
    (interleaveJS left right).getD (2 * i) none = left[i]? ∧
    (interleaveJS left right).getD (2 * i + 1) none = right[i]? := by
  induction left generalizing right i with
  | nil => cases h
  | cons l ls ih =>
    cases i with
    | zero =>
      constructor
      · simp [interleaveJS]
      · cases right <;> simp [interleaveJS]
    | succ i =>
      have h2 : 2 * (i + 1) = 2 * i + 1 + 1 := by omega
      have h3 : i < ls.length := by
        simp only [List.length_cons] at h
        omega
      have hih := ih right.tail i h3
      simp only [interleaveJS, h2, List.getD_cons_succ, List.getElem?_cons_succ]
      refine ⟨hih.1, ?_⟩
      rw [hih.2]
      cases right with
      | nil => rfl
      | cons r rs => simp only [List.tail_cons, List.getElem?_cons_succ]

theorem sendBlock_fields (floatBE : Option Sample → List Nat)
    (st s2 : AooState Sample) (b : List (Option Sample)) (evs : List Event)
    (h : sendBlock floatBE st b = .ok (s2, evs)) :
    s2 = { st with
      sequence := if 2147483647 ≤ st.sequence + 1 then 0 else st.sequence + 1 } := by
  unfold sendBlock at h
  split at h
  · cases h
  · simp only [Except.ok.injEq, Prod.mk.injEq] at h
    exact h.1.symm

theorem sendBlocks_fields (floatBE : Option Sample → List Nat) :
    ∀ (bs : List (List (Option Sample))) (st s2 : AooState Sample) (evs : List Event),
      sendBlocks floatBE st bs = .ok (s2, evs) →
      s2.sampleBuffer = st.sampleBuffer ∧ s2.blockSize = st.blockSize ∧
      s2.channels = st.channels ∧ s2.sinks = st.sinks ∧
      s2.streamId = st.streamId ∧ s2.sourceId = st.sourceId ∧
      s2.isStreaming = st.isStreaming ∧ s2.startSent = st.startSent ∧
      s2.sampleRate = st.sampleRate ∧ s2.formatId = st.formatId ∧
      s2.sinkVersion = st.sinkVersion
  | [], st, s2, evs, h => by
    simp only [sendBlocks, Except.ok.injEq, Prod.mk.injEq] at h
    rw [← h.1]
    exact ⟨rfl, rfl, rfl, rfl, rfl, rfl, rfl, rfl, rfl, rfl, rfl⟩
  | b :: bs, st, s2, evs, h => by
    unfold sendBlocks at h
    split at h
    · cases h
    · rename_i s1 ev1 h1
      split at h
      · cases h
      · rename_i s2' ev2 h2
        simp only [Except.ok.injEq, Prod.mk.injEq] at h
        obtain ⟨rfl, _⟩ := h
        have hrec := sendBlocks_fields floatBE bs s1 s2' ev2 h2
        have hone := sendBlock_fields floatBE st s1 b ev1 h1
        subst hone
        exact hrec

/-- `applyRateOverride` touches only `sampleRate` and `formatId`. -/
theorem applyRateOverride_fields (s : AooState Sample) (sr : Option Nat) :
    (applyRateOverride s sr).sampleBuffer = s.sampleBuffer ∧
    (applyRateOverride s sr).blockSize = s.blockSize ∧
    (applyRateOverride s sr).channels = s.channels ∧
    (applyRateOverride s sr).sinks = s.sinks ∧
    (applyRateOverride s sr).streamId = s.streamId ∧
    (applyRateOverride s sr).sourceId = s.sourceId ∧
    (applyRateOverride s sr).sequence = s.sequence ∧
    (applyRateOverride s sr).isStreaming = s.isStreaming ∧
    (applyRateOverride s sr).startSent = s.startSent ∧
    (applyRateOverride s sr).sinkVersion = s.sinkVersion := by
  cases sr with
  | none => exact ⟨rfl, rfl, rfl, rfl, rfl, rfl, rfl, rfl, rfl, rfl⟩
  | some r =>
    by_cases h1 : r ≠ 0 ∧ r ≠ s.sampleRate
    · by_cases h2 : s.sampleRate ≠ r
      · simp [applyRateOverride, setSampleRate, if_pos h1, if_pos h2]
      · simp [applyRateOverride, setSampleRate, if_pos h1, if_neg h2]
    · simp [applyRateOverride, if_neg h1]

/-- C10: a streaming `sendAudio(left, right)` call appends exactly
`2 * left.length` samples in the order `left[0], right[0], left[1],
right[1], ...` (JS reads `undefined` past the end of a shorter `right`),
independent of the configured `channels` value, which only affects the
drain below; elements of `right` at indices at or beyond `left.length`
are never read, so the call behaves identically with `right` truncated to
`left.length`; the post-call buffer is the drain remainder of the old
buffer extended by exactly that interleaving. -/
theorem sendAudioInterleave (floatBE : Option Sample → List Nat)
    (s s' : AooState Sample) (left right : List Sample) (sr : Option Nat)
    (evs : List Event) (hstream : s.isStreaming = true)
    (hok : sendAudio floatBE s left right sr = .ok (s', evs)) :
    (interleaveJS left right).length = 2 * left.length ∧
    (∀ i, i < left.length →
      (interleaveJS left right).getD (2 * i) none = left[i]? ∧
      (interleaveJS left right).getD (2 * i + 1) none = right[i]?) ∧
    sendAudio floatBE s left right sr = sendAudio floatBE s left (right.take left.length) sr ∧
    s'.sampleBuffer =
      (drainBlocks (s.blockSize * s.channels) (s.sampleBuffer ++ interleaveJS left right)).2 := by
  refine ⟨interleaveJS_length left right,
    fun i hi => interleaveJS_getD left right i hi, ?_, ?_⟩
  · unfold sendAudio
    rw [interleaveJS_take]
  · unfold sendAudio at hok
    rw [if_neg (by simp [hstream])] at hok
    split at hok
    · cases hok
    · rename_i s1 ev1 h1
      have hs1 : s1.sampleBuffer = s.sampleBuffer ∧ s1.blockSize = s.blockSize ∧
          s1.channels = s.channels := by
        split at h1
        · unfold sendStartToAllSinks at h1
          split at h1
          · cases h1
          · simp only [Except.ok.injEq, Prod.mk.injEq] at h1
            rw [← h1.1]
            have := applyRateOverride_fields s sr
            exact ⟨this.1, this.2.1, this.2.2.1⟩
        · simp only [Except.ok.injEq, Prod.mk.injEq] at h1
          rw [← h1.1]
          exact ⟨rfl, rfl, rfl⟩
      split at hok
      · cases hok
      · rename_i s2 ev2 h2
        simp only [Except.ok.injEq, Prod.mk.injEq] at hok
        obtain ⟨rfl, _⟩ := hok
        unfold drainAndSend at h2
        split at h2
        · cases h2
        · rename_i s3 ev3 h3
          simp only [Except.ok.injEq, Prod.mk.injEq] at h2
          obtain ⟨rfl, _⟩ := h2
          have := (sendBlocks_fields floatBE _ _ _ _ h3).1
          rw [this]
          show (drainBlocks (s1.blockSize * s1.channels)
            (s1.sampleBuffer ++ interleaveJS left right)).2 = _
          rw [hs1.1, hs1.2.1, hs1.2.2]

/-- Witness for `sendAudioInterleave` on a concrete streaming state with a
`right` channel longer than `left`. -/
theorem sendAudioInterleave_witness :
    sendAudio (fun _ => [0, 0, 0, 0]) (start (initState Nat 2 48000 4 1 9998 1000))
      [1] [10, 20, 30] none =
      .ok ({ start (initState Nat 2 48000 4 1 9998 1000) with
        sampleBuffer := [some 1, some 10], startSent := true }, []) ∧
    (start (initState Nat 2 48000 4 1 9998 1000) : AooState Nat).isStreaming = true ∧
    ({ start (initState Nat 2 48000 4 1 9998 1000) with
        sampleBuffer := [some 1, some 10], startSent := true } :
          AooState Nat).sampleBuffer =
      (drainBlocks ((start (initState Nat 2 48000 4 1 9998 1000)).blockSize *
          (start (initState Nat 2 48000 4 1 9998 1000)).channels)
        ((start (initState Nat 2 48000 4 1 9998 1000)).sampleBuffer ++
          interleaveJS [1] [10, 20, 30])).2 := by
  refine ⟨by rfl, by rfl, ?_⟩
  exact (sendAudioInterleave (fun _ => [0, 0, 0, 0])
    (start (initState Nat 2 48000 4 1 9998 1000)) _ [1] [10, 20, 30] none []
    (by rfl) (by rfl)).2.2.2

/-! ### C9 — ping handling -/

/-- Whether a datagram reaches the `/ping` branch of the dispatcher:
non-binary, address NUL at a positive index, address containing `/ping`
but neither `/invite` nor `/start` (the earlier branches win). -/
def pingBranchB (msg : List Nat) : Bool :=
  !decide (4 ≤ msg.length ∧ byteAt msg 0 &&& 128 ≠ 0) &&
  decide (0 < jsBufIndexOf msg 0 0) &&
  !containsSeq (jsToStringAscii msg 0 (jsBufIndexOf msg 0 0)) (strBytes "/invite") &&
  !containsSeq (jsToStringAscii msg 0 (jsBufIndexOf msg 0 0)) (strBytes "/start") &&
  containsSeq (jsToStringAscii msg 0 (jsBufIndexOf msg 0 0)) (strBytes "/ping")

/-- C9, amended: a datagram reaching the `/ping` branch (address contains
`/ping` and neither `/invite` nor `/start`, which take precedence) never
mutates any session or registry state and at most emits one `/pong`; and
when its arguments decode to at least two values with `args[1]` a
non-negative integer (so `BigInt(args[1] || 0)` and the 64-bit timetag
write succeed) and the source id fits int32, the `/pong` is sent back to
the sender's host and port, with no registration requirement on the
sender. -/
theorem pingStateless_amended (s : AooState Sample) (msg : List Nat)
    (host : String) (port : Nat) (now : Nat) (hping : pingBranchB msg = true) :
    handleMessage s msg host port now =
      .ok (s, sendPong s host port msg (jsBufIndexOf msg 0 0).toNat now) ∧
    (∀ args t, parseOscArgs msg (jsBufIndexOf msg 0 0).toNat = .ok args →
      2 ≤ args.length → args.getD 1 .vNull = .vInt t → 0 ≤ t →
      t < 18446744073709551616 →
      -2147483648 ≤ s.sourceId → s.sourceId ≤ 2147483647 →
      (now : Int) * 1000000 < 18446744073709551616 →
      sendPong s host port msg (jsBufIndexOf msg 0 0).toNat now =
        [Event.dgram host port
          (strBlock (strBytes ("/aoo/sink/" ++ jsToStr (args.getD 0 .vNull) ++ "/pong")) ++
            strBlock [44, 105, 116, 116] ++
            List.flatten [i32Bytes s.sourceId, u64Bytes t.toNat,
              u64Bytes ((now : Int) * 1000000).toNat])]) := by
  simp only [pingBranchB, Bool.and_eq_true, Bool.not_eq_true',
    decide_eq_true_eq, decide_eq_false_iff_not, Bool.not_eq_true] at hping
  obtain ⟨⟨⟨⟨hnb, hpos⟩, hninv⟩, hnst⟩, hp⟩ := hping
  constructor
  · unfold handleMessage
    rw [if_neg (by simpa using hnb), if_pos hpos, if_neg (by simp [hninv]),
      if_neg (by simp [hnst]), if_pos hp]
  · intro args t hargs hlen hval ht0 hlt hlo hhi hnow
    unfold sendPong
    rw [hargs]
    split
    · rename_i heq
      cases heq
    · rename_i args' heq
      rw [← Except.ok.inj heq]
      rw [if_pos hlen, hval]
      have htt : (if jsTruthy (OscVal.vInt t) then OscVal.vInt t else OscVal.vInt 0) =
          OscVal.vInt t := by
        by_cases h0 : t = 0
        · subst h0
          rfl
        · rw [if_pos (by simp [jsTruthy, h0])]
      rw [htt]
      have e1 : encodeArg (105, OscVal.vInt s.sourceId) = .ok (i32Bytes s.sourceId) :=
        encodeArg_int s.sourceId hlo hhi
      have e2 : encodeArg (116, OscVal.vBig t) = .ok (u64Bytes t.toNat) :=
        encodeArg_big t ht0 hlt
      have e3 : encodeArg (116, OscVal.vBig ((now : Int) * 1000000)) =
          .ok (u64Bytes ((now : Int) * 1000000).toNat) :=
        encodeArg_big _ (by omega) hnow
      have hg : ∀ x ∈ [(105, OscVal.vInt s.sourceId), (116, OscVal.vBig t),
          (116, OscVal.vBig ((now : Int) * 1000000))],
          encodeArg x = .ok (encodedOf x) := by
        intro x hx
        simp only [List.mem_cons, List.not_mem_nil, or_false] at hx
        rcases hx with rfl | rfl | rfl <;>
          exact encodeArg_ok_of_isOk _ (by first
            | (rw [e1]; rfl)
            | (rw [e2]; rfl)
            | (rw [e3]; rfl))
      have hmap : [(105, OscVal.vInt s.sourceId), (116, OscVal.vBig t),
          (116, OscVal.vBig ((now : Int) * 1000000))].map encodedOf =
          [i32Bytes s.sourceId, u64Bytes t.toNat,
            u64Bytes ((now : Int) * 1000000).toNat] := by
        simp only [List.map_cons, List.map_nil, encodedOf_eq _ _ e1,
          encodedOf_eq _ _ e2, encodedOf_eq _ _ e3]
      have hb : buildOSCMessage
          (strBytes ("/aoo/sink/" ++ jsToStr (args.getD 0 OscVal.vNull) ++ "/pong"))
          [(105, OscVal.vInt s.sourceId), (116, OscVal.vBig t),
            (116, OscVal.vBig ((now : Int) * 1000000))] =
          .ok (strBlock (strBytes ("/aoo/sink/" ++ jsToStr (args.getD 0 OscVal.vNull) ++ "/pong")) ++
            strBlock [44, 105, 116, 116] ++
            List.flatten [i32Bytes s.sourceId, u64Bytes t.toNat,
              u64Bytes ((now : Int) * 1000000).toNat]) := by
        unfold buildOSCMessage
        rw [mapM_ok encodeArg encodedOf _ hg, hmap]
        rfl
      split
      · rename_i heq
        rw [show jsBigIntOfVal (OscVal.vInt t) = some t from rfl] at heq
        cases heq
      · rename_i t1 heq
        rw [show jsBigIntOfVal (OscVal.vInt t) = some t from rfl] at heq
        have ht1 : t1 = t := by
          cases heq
          rfl
        subst ht1
        split
        · rename_i heq2
          rw [hb] at heq2
          cases heq2
        · rename_i bytes heq2
          rw [hb] at heq2
          cases heq2
          rfl

/-- C9, counterexample to the claim as stated: a datagram whose address
`/invite/ping` contains `/ping` and decodes to two integer arguments is
captured by the `/invite` branch (checked first), which mutates the
session state (stream id adopted, sequence and format reset, streaming
started) and sends a `/start`, not a `/pong`. -/
theorem pingStateless_counterexample :
    containsSeq (jsToStringAscii
        [47, 105, 110, 118, 105, 116, 101, 47, 112, 105, 110, 103, 0, 0, 0, 0,
          44, 105, 105, 0, 0, 0, 0, 5, 0, 0, 3, 9] 0
        (jsBufIndexOf
          [47, 105, 110, 118, 105, 116, 101, 47, 112, 105, 110, 103, 0, 0, 0, 0,
            44, 105, 105, 0, 0, 0, 0, 5, 0, 0, 3, 9] 0 0))
      (strBytes "/ping") = true ∧
    (parseOscArgs
      [47, 105, 110, 118, 105, 116, 101, 47, 112, 105, 110, 103, 0, 0, 0, 0,
        44, 105, 105, 0, 0, 0, 0, 5, 0, 0, 3, 9] 12).map List.length = .ok 2 ∧
    (handleMessage (initState Unit 2 48000 256 1 9998 1000)
      [47, 105, 110, 118, 105, 116, 101, 47, 112, 105, 110, 103, 0, 0, 0, 0,
        44, 105, 105, 0, 0, 0, 0, 5, 0, 0, 3, 9] "9.9.9.9" 7 0).map
      (fun p => (p.1.streamId, p.1.isStreaming)) = .ok (OscVal.vInt 777, true) ∧
    (initState Unit 2 48000 256 1 9998 1000 : AooState Unit).streamId =
      OscVal.vInt 1000 ∧
    (initState Unit 2 48000 256 1 9998 1000 : AooState Unit).isStreaming = false := by
  exact ⟨rfl, rfl, rfl, rfl, rfl⟩

/-- Witness for `pingStateless_amended` on a concrete ping from an
unregistered sender. -/
theorem pingStateless_amended_witness :
    handleMessage (initState Unit 2 48000 256 1 9998 1000)
      [47, 97, 111, 111, 47, 115, 114, 99, 47, 49, 47, 112, 105, 110, 103, 0,
        44, 105, 105, 0, 0, 0, 0, 1, 0, 0, 3, 9] "1.2.3.4" 9999 5 =
      .ok (initState Unit 2 48000 256 1 9998 1000,
        sendPong (initState Unit 2 48000 256 1 9998 1000) "1.2.3.4" 9999
          [47, 97, 111, 111, 47, 115, 114, 99, 47, 49, 47, 112, 105, 110, 103, 0,
            44, 105, 105, 0, 0, 0, 0, 1, 0, 0, 3, 9] 15 5) ∧
    sendPong (initState Unit 2 48000 256 1 9998 1000) "1.2.3.4" 9999
      [47, 97, 111, 111, 47, 115, 114, 99, 47, 49, 47, 112, 105, 110, 103, 0,
        44, 105, 105, 0, 0, 0, 0, 1, 0, 0, 3, 9] 15 5 =
      [Event.dgram "1.2.3.4" 9999
        (strBlock (strBytes ("/aoo/sink/" ++ jsToStr (OscVal.vInt 1) ++ "/pong")) ++
          strBlock [44, 105, 116, 116] ++
          List.flatten [i32Bytes 1, u64Bytes (777 : Int).toNat,
            u64Bytes ((5 : Int) * 1000000).toNat])] := by
  have h := pingStateless_amended (initState Unit 2 48000 256 1 9998 1000)
    [47, 97, 111, 111, 47, 115, 114, 99, 47, 49, 47, 112, 105, 110, 103, 0,
      44, 105, 105, 0, 0, 0, 0, 1, 0, 0, 3, 9] "1.2.3.4" 9999 5 (by rfl)
  refine ⟨h.1, ?_⟩
  have h2 := h.2 [OscVal.vInt 1, OscVal.vInt 777] 777 (by rfl) (by decide)
    (by rfl) (by decide) (by decide) (by decide) (by decide) (by decide)
  exact h2

/-! ### C5 — invite handshake -/

theorem mapHas_mapSet (m : List (String × Sink)) (k : String) (v : Sink) :
    mapHas (mapSet m k v) k = true := by
  induction m with
  | nil => simp [mapSet, mapHas]
  | cons kv t ih =>
    unfold mapSet
    split
    · simp [mapHas]
    · simp only [mapHas, List.any_cons, Bool.or_eq_true]
      right
      simpa [mapHas] using ih

/-- Whether a datagram reaches the `/invite` branch of the dispatcher. -/
def inviteBranchB (msg : List Nat) : Bool :=
  !decide (4 ≤ msg.length ∧ byteAt msg 0 &&& 128 ≠ 0) &&
  decide (0 < jsBufIndexOf msg 0 0) &&
  containsSeq (jsToStringAscii msg 0 (jsBufIndexOf msg 0 0)) (strBytes "/invite")

/-- C5, amended: on an `/invite` datagram whose arguments decode to at
least two values and whose second argument is an int32 (the only case in
which the `/start` reply serializes, e.g. an `i` argument), the dispatcher
adopts it as the stream id, resets `formatId` and `sequence` to 0,
registers the sender as sink 1, sends exactly one `/start` to the sender
and starts the session; with fewer than two decoded arguments nothing
changes and nothing is sent. (When the adopted token is not int32
serializable the `/start` write throws inside the `try`: the identity is
still adopted and the sink registered, but no `/start` is sent and the
session is not started — see `inviteHandshake_counterexample`.) -/
theorem inviteHandshake_amended (s : AooState Sample) (msg : List Nat)
    (host : String) (port : Nat) (now : Nat) (hwf : WF s)
    (hbr : inviteBranchB msg = true) :
    (∀ args t, parseOscArgs msg (jsBufIndexOf msg 0 0).toNat = .ok args →
      2 ≤ args.length → args.getD 1 OscVal.vNull = OscVal.vInt t →
      -2147483648 ≤ t → t ≤ 2147483647 →
      handleMessage s msg host port now = .ok
        (start (addSink { s with
            streamId := OscVal.vInt t, formatId := 0, sequence := 0 } host port 1),
          [Event.dgram host port (buildStartBytes
            (addSink { s with
              streamId := OscVal.vInt t, formatId := 0, sequence := 0 } host port 1) 1)]) ∧
      (start (addSink { s with
        streamId := OscVal.vInt t, formatId := 0, sequence := 0 } host port 1)).isStreaming
        = true ∧
      (start (addSink { s with
        streamId := OscVal.vInt t, formatId := 0, sequence := 0 } host port 1)).streamId
        = OscVal.vInt t ∧
      (start (addSink { s with
        streamId := OscVal.vInt t, formatId := 0, sequence := 0 } host port 1)).formatId
        = 0 ∧
      (start (addSink { s with
        streamId := OscVal.vInt t, formatId := 0, sequence := 0 } host port 1)).sequence
        = 0 ∧
      mapHas (start (addSink { s with
        streamId := OscVal.vInt t, formatId := 0, sequence := 0 } host port 1)).sinks
        (sinkKey host port 1) = true) ∧
    (∀ args, parseOscArgs msg (jsBufIndexOf msg 0 0).toNat = .ok args →
      args.length < 2 → handleMessage s msg host port now = .ok (s, [])) := by
  simp only [inviteBranchB, Bool.and_eq_true, Bool.not_eq_true',
    decide_eq_true_eq, decide_eq_false_iff_not] at hbr
  obtain ⟨⟨hnb, hpos⟩, hinv⟩ := hbr
  have hbranch : handleMessage s msg host port now =
      .ok (inviteHandler s msg host port (jsBufIndexOf msg 0 0).toNat) := by
    unfold handleMessage
    rw [if_neg (by simpa using hnb), if_pos hpos, if_pos hinv]
  constructor
  · intro args t hargs hlen hval hlo hhi
    have hwf2 : WF (addSink { s with
        streamId := OscVal.vInt t, formatId := 0, sequence := 0 } host port 1) := by
      obtain ⟨h1, h2, h3, h4, h5, h6, h7, h8, h9⟩ := hwf
      refine ⟨h1, ?_, h3, h4, ?_, ?_, h7, h8, h9⟩
      · show isOkE (streamIdBytes (OscVal.vInt t)) = true
        simp only [streamIdBytes, jsToNumInt]
        rw [if_neg (by omega)]
        rfl
      · show (0 : Nat) ≤ 2147483647
        omega
      · show (0 : Nat) ≤ 2147483647
        omega
    refine ⟨?_, ?_, ?_, ?_, ?_, ?_⟩
    · rw [hbranch]
      unfold inviteHandler
      rw [hargs]
      split
      · rename_i heq
        cases heq
      · rename_i args' heq
        rw [← Except.ok.inj heq, if_pos hlen, hval]
        rw [sendStartOSC_ok _ hwf2 host port 1]
    · unfold start
      split
      · assumption
      · rfl
    · unfold start
      split <;> rfl
    · unfold start
      split <;> rfl
    · unfold start
      split
      · rename_i h
        show (addSink { s with
          streamId := OscVal.vInt t, formatId := 0, sequence := 0 } host port 1).sequence = 0
        rfl
      · rfl
    · unfold start
      split <;> exact mapHas_mapSet _ _ _
  · intro args hargs hlt2
    rw [hbranch]
    unfold inviteHandler
    rw [hargs]
    split
    · rename_i heq
      cases heq
    · rename_i args' heq
      rw [← Except.ok.inj heq, if_neg (by omega)]

/-- C5, counterexample to the claim as stated: an `/invite` whose second
decoded argument is the numeric string `"99999999999"` (two decoded
values, so the claim applies) adopts the token and registers the sender,
but `writeInt32BE(+"99999999999")` throws while building the `/start`
reply: the exception is swallowed, no `/start` is sent, and `start()` is
never called, so the session is not streaming afterwards. -/
theorem inviteHandshake_counterexample :
    (parseOscArgs
      [47, 105, 110, 118, 105, 116, 101, 0, 44, 115, 115, 0, 97, 0, 0, 0,
        57, 57, 57, 57, 57, 57, 57, 57, 57, 57, 57, 0] 7).map List.length = .ok 2 ∧
    (handleMessage (initState Unit 2 48000 256 1 9998 1000)
      [47, 105, 110, 118, 105, 116, 101, 0, 44, 115, 115, 0, 97, 0, 0, 0,
        57, 57, 57, 57, 57, 57, 57, 57, 57, 57, 57, 0] "10.0.0.5" 7000 0).map
      (fun p => (p.1.isStreaming, p.2.length,
        mapHas p.1.sinks (sinkKey "10.0.0.5" 7000 1))) = .ok (false, 0, true) := by
  exact ⟨rfl, rfl⟩

/-- Witness for `inviteHandshake_amended` on a concrete invite carrying
the integer token 777. -/
theorem inviteHandshake_amended_witness :
    (handleMessage (initState Unit 2 48000 256 1 9998 1000)
      [47, 105, 110, 118, 105, 116, 101, 0, 44, 105, 105, 0,
        0, 0, 0, 5, 0, 0, 3, 9] "10.0.0.5" 7000 3).map
      (fun p => (p.1.isStreaming, p.1.streamId, p.1.formatId, p.1.sequence,
        mapHas p.1.sinks (sinkKey "10.0.0.5" 7000 1), p.2.length)) =
      .ok (true, OscVal.vInt 777, 0, 0, true, 1) := by
  have h := (inviteHandshake_amended (initState Unit 2 48000 256 1 9998 1000)
    [47, 105, 110, 118, 105, 116, 101, 0, 44, 105, 105, 0, 0, 0, 0, 5, 0, 0, 3, 9]
    "10.0.0.5" 7000 3 (by decide) (by rfl)).1
    [OscVal.vInt 5, OscVal.vInt 777] 777 (by rfl) (by decide) (by rfl)
    (by decide) (by decide)
  rw [h.1]
  rfl

/-! ### Sequence counter and drain-loop algebra (for C3/C4) -/

/-- One `sequence++` with the wrap at `0x7FFFFFFF` inclusive, as performed
at the end of `_sendBlock`. -/
def seqAfter (q : Nat) : Nat := if 2147483647 ≤ q + 1 then 0 else q + 1

/-- `k` successive sequence increments. -/
def seqIter (q : Nat) : Nat → Nat
  | 0 => q
  | k + 1 => seqIter (seqAfter q) k

theorem seqAfter_eq_mod (q : Nat) (h : q < 2147483647) :
    seqAfter q = (q + 1) % 2147483647 := by
  unfold seqAfter
  split <;> omega

theorem seqAfter_lt (q : Nat) : seqAfter q < 2147483647 := by
  unfold seqAfter
  split <;> omega

theorem seqIter_mod (k : Nat) : ∀ q, q < 2147483647 →
    seqIter q k = (q + k) % 2147483647 := by
  induction k with
  | zero =>
    intro q h
    simp [seqIter, Nat.mod_eq_of_lt h]
  | succ k ih =>
    intro q h
    show seqIter (seqAfter q) k = _
    rw [ih (seqAfter q) (seqAfter_lt q), seqAfter_eq_mod q h, Nat.mod_add_mod]
    congr 1
    omega

theorem seqIter_add (q a b : Nat) : seqIter (seqIter q a) b = seqIter q (a + b) := by
  induction a generalizing q with
  | zero => rw [Nat.zero_add]; rfl
  | succ a ih =>
    rw [show a + 1 + b = (a + b) + 1 from by omega]
    show seqIter (seqIter (seqAfter q) a) b = seqIter (seqAfter q) (a + b)
    exact ih (seqAfter q)

theorem seqIter_le (q k : Nat) (h : q ≤ 2147483647) : seqIter q k ≤ 2147483647 := by
  induction k generalizing q with
  | zero => exact h
  | succ k ih => exact ih (seqAfter q) (Nat.le_of_lt (seqAfter_lt q))

/-- Structural properties of the drain loop: the blocks and the remainder
partition the buffer, their sizes are the division and remainder by the
block size, and every block is full. -/
theorem drainBlocks_spec {α : Type} (n : Nat) (hn : 0 < n) :
    ∀ (m : Nat) (buf : List α), buf.length ≤ m →
      (drainBlocks n buf).1.flatten ++ (drainBlocks n buf).2 = buf ∧
      (drainBlocks n buf).2.length = buf.length % n ∧
      (drainBlocks n buf).1.length = buf.length / n ∧
      ∀ b ∈ (drainBlocks n buf).1, b.length = n := by
  intro m
  induction m with
  | zero =>
    intro buf hlen
    have hb : buf = [] := List.length_eq_zero.mp (by omega)
    subst hb
    rw [drainBlocks_eq, if_neg (by simp; omega)]
    simp
  | succ m ih =>
    intro buf hlen
    rw [drainBlocks_eq]
    by_cases hc : n ≤ buf.length
    · rw [if_pos ⟨hn, hc⟩]
      have hdrop : (buf.drop n).length ≤ m := by
        simp only [List.length_drop]
        omega
      obtain ⟨ih1, ih2, ih3, ih4⟩ := ih (buf.drop n) hdrop
      refine ⟨?_, ?_, ?_, ?_⟩
      · simp only [List.flatten_cons, List.append_assoc, ih1,
          List.take_append_drop]
      · rw [ih2, List.length_drop]
        exact (Nat.mod_eq_sub_mod hc).symm
      · simp only [List.length_cons, ih3, List.length_drop]
        rw [Nat.div_eq_sub_div hn hc]
      · intro b hb
        simp only [List.mem_cons] at hb
        rcases hb with rfl | hb
        · rw [List.length_take]
          omega
        · exact ih4 b hb
    · rw [if_neg (by intro h; exact hc h.2)]
      refine ⟨by simp, ?_, ?_, by simp⟩
      · exact (Nat.mod_eq_of_lt (Nat.lt_of_not_le hc)).symm
      · exact (Nat.div_eq_of_lt (Nat.lt_of_not_le hc)).symm

/-- Draining a concatenation is draining the first part, then draining its
remainder extended by the second part (per-call drains compose to the
global drain). -/
theorem drainBlocks_append {α : Type} (n : Nat) (hn : 0 < n) :
    ∀ (m : Nat) (a b : List α), a.length ≤ m →
      drainBlocks n (a ++ b) =
        ((drainBlocks n a).1 ++ (drainBlocks n ((drainBlocks n a).2 ++ b)).1,
          (drainBlocks n ((drainBlocks n a).2 ++ b)).2) := by
  intro m
  induction m with
  | zero =>
    intro a b hlen
    have ha : a = [] := List.length_eq_zero.mp (by omega)
    subst ha
    rw [show drainBlocks n ([] : List α) = ([], []) from by
      rw [drainBlocks_eq, if_neg (by simp; omega)]]
    simp
  | succ m ih =>
    intro a b hlen
    by_cases hc : n ≤ a.length
    · have h1 : drainBlocks n (a ++ b) =
          ((a ++ b).take n :: (drainBlocks n ((a ++ b).drop n)).1,
            (drainBlocks n ((a ++ b).drop n)).2) := by
        rw [drainBlocks_eq, if_pos ⟨hn, by simp only [List.length_append]; omega⟩]
      have h2 : drainBlocks n a =
          (a.take n :: (drainBlocks n (a.drop n)).1, (drainBlocks n (a.drop n)).2) := by
        rw [drainBlocks_eq, if_pos ⟨hn, hc⟩]
      rw [h1, h2, List.take_append_of_le_length hc, List.drop_append_of_le_length hc]
      have := ih (a.drop n) b (by simp only [List.length_drop]; omega)
      rw [this]
      rfl
    · have h2 : drainBlocks n a = ([], a) := by
        rw [drainBlocks_eq, if_neg (by intro h; exact hc h.2)]
      rw [h2]
      simp

/-- Extract the payload of a successful computation. -/
def getOk {α : Type} (e : Except Unit α) (dflt : α) : α :=
  match e with
  | .ok a => a
  | .error _ => dflt

theorem getOk_spec {α : Type} (e : Except Unit α) (dflt : α) (h : isOkE e = true) :
    e = .ok (getOk e dflt) := by
  cases e
  · cases h
  · rfl

/-- The bytes of a successfully built data message. -/
def dataBytes (sinkId sourceId : Int) (streamId : OscVal) (sequence : Nat)
    (audio : List Nat) : List Nat :=
  getOk (buildDataMessage sinkId sourceId streamId sequence audio) []

/-- The data-message datagrams `_sendBlock` emits for a list of blocks,
threading the sequence counter (one datagram per sink per block). -/
def blocksEvents (floatBE : Option Sample → List Nat)
    (sinks : List (String × Sink)) (sourceId : Int) (streamId : OscVal) :
    List (List (Option Sample)) → Nat → List Event
  | [], _ => []
  | b :: bs, q =>
    sinks.map (fun kv => Event.dgram kv.2.host kv.2.port
      (dataBytes kv.2.sinkId sourceId streamId q ((b.map floatBE).flatten))) ++
      blocksEvents floatBE sinks sourceId streamId bs (seqAfter q)

theorem blocksEvents_append (floatBE : Option Sample → List Nat)
    (sinks : List (String × Sink)) (sourceId : Int) (streamId : OscVal) :
    ∀ (bs1 bs2 : List (List (Option Sample))) (q : Nat),
      blocksEvents floatBE sinks sourceId streamId (bs1 ++ bs2) q =
        blocksEvents floatBE sinks sourceId streamId bs1 q ++
          blocksEvents floatBE sinks sourceId streamId bs2 (seqIter q bs1.length)
  | [], bs2, q => rfl
  | b :: bs1, bs2, q => by
    simp only [List.cons_append, blocksEvents, List.append_assoc, List.append_eq]
    rw [blocksEvents_append floatBE sinks sourceId streamId bs1 bs2 (seqAfter q)]
    rfl

theorem flatten_length_four (floatBE : Option Sample → List Nat)
    (hfl : ∀ x, (floatBE x).length = 4) (b : List (Option Sample)) :
    ((b.map floatBE).flatten).length = 4 * b.length := by
  induction b with
  | nil => rfl
  | cons x t ih =>
    simp only [List.map_cons, List.flatten_cons, List.length_append, ih, hfl,
      List.length_cons]
    omega

theorem exists_four {α : Type} (l : List α) (h : l.length = 4) :
    ∃ a b c d, l = [a, b, c, d] := by
  rcases l with _ | ⟨a, _ | ⟨b, _ | ⟨c, _ | ⟨d, _ | ⟨e, t⟩⟩⟩⟩⟩ <;>
    simp only [List.length_nil, List.length_cons] at h <;>
    first
      | omega
      | exact ⟨a, b, c, d, rfl⟩

theorem dataMessageRest_ok (sinkId sourceId : Int) (sNum : List Nat) (q : Nat)
    (audio : List Nat) (hq : q ≤ 2147483647) (hlen : audio.length ≤ 65535) :
    dataMessageRest sinkId sourceId sNum q audio =
      .ok ([129, 0, (sinkId % 256).toNat, (sourceId % 256).toNat] ++ sNum ++
        i32Bytes q ++ [0, 0] ++
        [audio.length / 256 % 256, audio.length % 256] ++ audio) := by
  unfold dataMessageRest
  rw [if_neg (by omega), if_neg (by omega)]

theorem buildDataMessage_ok (sinkId sourceId : Int) (streamId : OscVal)
    (q : Nat) (audio : List Nat)
    (hsid : isOkE (streamIdBytes streamId) = true)
    (hq : q ≤ 2147483647) (hlen : audio.length ≤ 65535) :
    buildDataMessage sinkId sourceId streamId q audio =
      .ok (dataBytes sinkId sourceId streamId q audio) := by
  obtain ⟨sNum, hs⟩ : ∃ sNum, streamIdBytes streamId = .ok sNum := by
    cases h' : streamIdBytes streamId
    · rw [h'] at hsid
      cases hsid
    · exact ⟨_, rfl⟩
  have hb : buildDataMessage sinkId sourceId streamId q audio =
      .ok ([129, 0, (sinkId % 256).toNat, (sourceId % 256).toNat] ++ sNum ++
        i32Bytes q ++ [0, 0] ++
        [audio.length / 256 % 256, audio.length % 256] ++ audio) := by
    unfold buildDataMessage
    rw [hs]
    exact dataMessageRest_ok sinkId sourceId sNum q audio hq hlen
  rw [hb]
  unfold dataBytes getOk
  rw [hb]

theorem dataBytes_eq (sinkId sourceId : Int) (streamId : OscVal) (q : Nat)
    (audio sNum : List Nat) (hs : streamIdBytes streamId = .ok sNum)
    (hq : q ≤ 2147483647) (hlen : audio.length ≤ 65535) :
    dataBytes sinkId sourceId streamId q audio =
      [129, 0, (sinkId % 256).toNat, (sourceId % 256).toNat] ++ sNum ++
        i32Bytes q ++ [0, 0] ++
        [audio.length / 256 % 256, audio.length % 256] ++ audio := by
  have hb2 : buildDataMessage sinkId sourceId streamId q audio =
      .ok ([129, 0, (sinkId % 256).toNat, (sourceId % 256).toNat] ++ sNum ++
        i32Bytes q ++ [0, 0] ++
        [audio.length / 256 % 256, audio.length % 256] ++ audio) := by
    unfold buildDataMessage
    rw [hs]
    exact dataMessageRest_ok sinkId sourceId sNum q audio hq hlen
  have hb := buildDataMessage_ok sinkId sourceId streamId q audio
    (by rw [hs]; rfl) hq hlen
  rw [hb2] at hb
  exact (Except.ok.inj hb).symm

theorem dataBytes_head (sinkId sourceId : Int) (streamId : OscVal) (q : Nat)
    (audio sNum : List Nat) (hs : streamIdBytes streamId = .ok sNum)
    (hq : q ≤ 2147483647) (hlen : audio.length ≤ 65535) :
    byteAt (dataBytes sinkId sourceId streamId q audio) 0 = 129 := by
  rw [dataBytes_eq sinkId sourceId streamId q audio sNum hs hq hlen]
  rfl

/-- Big-endian int32 write/read round-trip at an arbitrary aligned
position of a larger buffer. -/
theorem readInt32BE_i32Bytes (pre post : List Nat) (n : Int)
    (h1 : -2147483648 ≤ n) (h2 : n ≤ 2147483647) :
    readInt32BE (pre ++ (i32Bytes n ++ post)) (pre.length : Int) = some n := by
  have hlen : (pre ++ (i32Bytes n ++ post)).length =
      pre.length + (4 + post.length) := by
    simp [i32Bytes_length]
  unfold readInt32BE
  rw [if_pos (by rw [hlen]; constructor <;> omega)]
  have htn : (pre.length : Int).toNat = pre.length := Int.toNat_natCast pre.length
  have hb : ∀ k, k < 4 →
      byteAt (pre ++ (i32Bytes n ++ post)) (pre.length + k) =
        byteAt (i32Bytes n) k := by
    intro k hk
    rw [byteAt_append_right pre _ (pre.length + k) (by omega),
      Nat.add_sub_cancel_left,
      byteAt_append_left _ post k (by rw [i32Bytes_length]; omega)]
  have h0 := hb 0 (by omega)
  have hb1 := hb 1 (by omega)
  have hb2 := hb 2 (by omega)
  have hb3 := hb 3 (by omega)
  rw [Nat.add_zero] at h0
  simp only [htn, h0, hb1, hb2, hb3]
  have e0 : byteAt (i32Bytes n) 0 = (n % 4294967296).toNat / 16777216 % 256 := rfl
  have e1 : byteAt (i32Bytes n) 1 = (n % 4294967296).toNat / 65536 % 256 % 256 := rfl
  have e2 : byteAt (i32Bytes n) 2 = (n % 4294967296).toNat / 256 % 256 % 256 := rfl
  have e3 : byteAt (i32Bytes n) 3 = (n % 4294967296).toNat % 256 % 256 := rfl
  rw [e0, e1, e2, e3]
  split <;> exact congrArg some (by omega)

theorem dataBytes_seq (sinkId sourceId : Int) (streamId : OscVal) (q : Nat)
    (audio sNum : List Nat) (hs : streamIdBytes streamId = .ok sNum)
    (hq : q ≤ 2147483647) (hlen : audio.length ≤ 65535) :
    readInt32BE (dataBytes sinkId sourceId streamId q audio) 8 = some (q : Int) := by
  rw [dataBytes_eq sinkId sourceId streamId q audio sNum hs hq hlen]
  have h4 := streamIdBytes_length streamId sNum hs
  have hpre : ([129, 0, (sinkId % 256).toNat, (sourceId % 256).toNat] ++ sNum).length = 8 := by
    simp [h4]
  have hre : [129, 0, (sinkId % 256).toNat, (sourceId % 256).toNat] ++ sNum ++
        i32Bytes (q : Int) ++ [0, 0] ++
        [audio.length / 256 % 256, audio.length % 256] ++ audio =
      ([129, 0, (sinkId % 256).toNat, (sourceId % 256).toNat] ++ sNum) ++
        (i32Bytes (q : Int) ++
          ([0, 0] ++ ([audio.length / 256 % 256, audio.length % 256] ++ audio))) := by
    simp [List.append_assoc]
  rw [hre, show (8 : Int) = (([129, 0, (sinkId % 256).toNat, (sourceId % 256).toNat] ++ sNum).length : Int) from by rw [hpre]; rfl,
    readInt32BE_i32Bytes _ _ (q : Int) (by omega) (by omega)]

/-- The audio payload of a data message starts at byte 16. -/
theorem dataBytes_payload (sinkId sourceId : Int) (streamId : OscVal) (q : Nat)
    (audio sNum : List Nat) (hs : streamIdBytes streamId = .ok sNum)
    (hq : q ≤ 2147483647) (hlen : audio.length ≤ 65535) :
    (dataBytes sinkId sourceId streamId q audio).drop 16 = audio := by
  rw [dataBytes_eq sinkId sourceId streamId q audio sNum hs hq hlen]
  have h4 := streamIdBytes_length streamId sNum hs
  obtain ⟨a, b, c, d, rfl⟩ := exists_four sNum h4
  rfl

theorem seqIter_lt (q k : Nat) (h : q < 2147483647) : seqIter q k < 2147483647 := by
  induction k generalizing q with
  | zero => exact h
  | succ k ih => exact ih (seqAfter q) (seqAfter_lt q)

theorem WF_start (s : AooState Sample) (h : WF s) : WF (start s) := by
  obtain ⟨h1, h2, h3, h4, h5, h6, h7, h8, h9⟩ := h
  unfold start
  split
  · exact ⟨h1, h2, h3, h4, h5, h6, h7, h8, h9⟩
  · exact ⟨h1, h2, h3, h4, Nat.zero_le _, h6, h7, h8, h9⟩

/-- A successful `_sendStartToAllSinks` only sets the announcement flag. -/
theorem sendStartToAllSinks_fields (s s1 : AooState Sample) (evs : List Event)
    (h : sendStartToAllSinks s = .ok (s1, evs)) :
    s1 = { s with startSent := true } := by
  unfold sendStartToAllSinks at h
  split at h
  · cases h
  · simp only [Except.ok.injEq, Prod.mk.injEq] at h
    exact h.1.symm

/-- From a well-formed state, `_sendStartToAllSinks` succeeds, sets the
announcement flag and emits one `/start` per active sink in registry
order. -/
theorem sendStartToAllSinks_ok (s : AooState Sample) (hwf : WF s) :
    sendStartToAllSinks s = .ok ({ s with startSent := true },
      (s.sinks.filter (fun kv => kv.2.active)).map (fun kv =>
        Event.dgram kv.2.host kv.2.port (buildStartBytes s kv.2.sinkId))) := by
  unfold sendStartToAllSinks
  rw [mapM_ok _ (fun kv =>
      Event.dgram kv.2.host kv.2.port (buildStartBytes s kv.2.sinkId)) _
    (fun kv _ => sendStartOSC_ok _ hwf kv.2.host kv.2.port kv.2.sinkId)]

/-- A `_sendBlock` whose per-sink builds all succeed: one data message per
sink carrying the current sequence number, then the wrapped increment. -/
theorem sendBlock_ok (floatBE : Option Sample → List Nat)
    (hfl : ∀ x, (floatBE x).length = 4) (st : AooState Sample)
    (b : List (Option Sample))
    (hsid : isOkE (streamIdBytes st.streamId) = true)
    (hq : st.sequence ≤ 2147483647)
    (hpay : 4 * b.length ≤ 65535) :
    sendBlock floatBE st b = .ok ({ st with sequence := seqAfter st.sequence },
      st.sinks.map (fun kv => Event.dgram kv.2.host kv.2.port
        (dataBytes kv.2.sinkId st.sourceId st.streamId st.sequence
          ((b.map floatBE).flatten)))) := by
  have hlen : ((b.map floatBE).flatten).length ≤ 65535 := by
    rw [flatten_length_four floatBE hfl b]
    omega
  unfold sendBlock
  have hm := mapM_ok
    (fun kv => (buildDataMessage kv.2.sinkId st.sourceId st.streamId st.sequence
      ((b.map floatBE).flatten)).map (Event.dgram kv.2.host kv.2.port))
    (fun kv => Event.dgram kv.2.host kv.2.port
      (dataBytes kv.2.sinkId st.sourceId st.streamId st.sequence
        ((b.map floatBE).flatten)))
    st.sinks
    (fun kv _ => by
      show (buildDataMessage kv.2.sinkId st.sourceId st.streamId st.sequence
        ((b.map floatBE).flatten)).map (Event.dgram kv.2.host kv.2.port) = _
      rw [buildDataMessage_ok kv.2.sinkId st.sourceId st.streamId st.sequence
        ((b.map floatBE).flatten) hsid hq hlen]
      rfl)
  rw [hm]
  rfl

/-- Sending a list of blocks from a state with serializable stream id,
in-range sequence and small enough blocks succeeds, advancing the
sequence once per block and emitting `blocksEvents`. -/
theorem sendBlocks_ok (floatBE : Option Sample → List Nat)
    (hfl : ∀ x, (floatBE x).length = 4) :
    ∀ (bs : List (List (Option Sample))) (st : AooState Sample),
      isOkE (streamIdBytes st.streamId) = true →
      st.sequence ≤ 2147483647 →
      (∀ b ∈ bs, 4 * b.length ≤ 65535) →
      sendBlocks floatBE st bs = .ok
        ({ st with sequence := seqIter st.sequence bs.length },
          blocksEvents floatBE st.sinks st.sourceId st.streamId bs st.sequence)
  | [], st, _, _, _ => rfl
  | b :: bs, st, hsid, hq, hpay => by
    have h1 := sendBlock_ok floatBE hfl st b hsid hq (hpay b (List.mem_cons_self b bs))
    have h2 := sendBlocks_ok floatBE hfl bs { st with sequence := seqAfter st.sequence }
      hsid (Nat.le_of_lt (seqAfter_lt st.sequence))
      (fun x hx => hpay x (List.mem_cons_of_mem b hx))
    unfold sendBlocks
    simp only [h1, h2]
    rfl

/-- A successful `sendBlocks` advances the sequence exactly once per block
(no hypotheses on the state). -/
theorem sendBlocks_seq (floatBE : Option Sample → List Nat) :
    ∀ (bs : List (List (Option Sample))) (st s2 : AooState Sample)
      (evs : List Event),
      sendBlocks floatBE st bs = .ok (s2, evs) →
      s2.sequence = seqIter st.sequence bs.length
  | [], st, s2, evs, h => by
    simp only [sendBlocks, Except.ok.injEq, Prod.mk.injEq] at h
    rw [← h.1]
    rfl
  | b :: bs, st, s2, evs, h => by
    unfold sendBlocks at h
    split at h
    · cases h
    · rename_i s1 ev1 h1
      split at h
      · cases h
      · rename_i s2x ev2 h2
        simp only [Except.ok.injEq, Prod.mk.injEq] at h
        obtain ⟨rfl, _⟩ := h
        have hone := sendBlock_fields floatBE st s1 b ev1 h1
        have hrec := sendBlocks_seq floatBE bs s1 s2x ev2 h2
        subst hone
        exact hrec

/-- The interleaved sample stream produced by a list of `sendAudio`
inputs. -/
def feedSamples (feeds : List (List Sample × List Sample)) : List (Option Sample) :=
  (feeds.map (fun p => interleaveJS p.1 p.2)).flatten

theorem run_cons_ok (floatBE : Option Sample → List Nat)
    (st s1 s2 : AooState Sample) (ev1 ev2 : List Event) (op : Op Sample)
    (ops : List (Op Sample))
    (hstep : step floatBE st op = .ok (s1, ev1))
    (hrun : run floatBE s1 ops = .ok (s2, ev2)) :
    run floatBE st (op :: ops) = .ok (s2, ev1 ++ ev2) := by
  simp only [run, hstep, hrun]

/-- Steady-state characterization of a list of `sendAudio(left, right)`
calls after the `/start` announcement: the cumulative interleaved feed is
drained in blocks of `blockSize * channels` samples, one data message per
sink per block with consecutively wrapped sequence numbers, and the
remainder is retained in the sample buffer. -/
theorem run_sendAudio_ok (floatBE : Option Sample → List Nat)
    (hfl : ∀ x, (floatBE x).length = 4) :
    ∀ (feeds : List (List Sample × List Sample)) (st : AooState Sample),
      st.isStreaming = true → st.startSent = true →
      isOkE (streamIdBytes st.streamId) = true →
      st.sequence < 2147483647 →
      0 < st.blockSize * st.channels →
      st.blockSize * st.channels * 4 ≤ 65535 →
      st.sampleBuffer.length < st.blockSize * st.channels →
      run floatBE st (feeds.map (fun p => Op.sendAudio p.1 p.2 none)) =
        .ok ({ st with
            sequence := seqIter st.sequence
              (drainBlocks (st.blockSize * st.channels)
                (st.sampleBuffer ++ feedSamples feeds)).1.length
            sampleBuffer := (drainBlocks (st.blockSize * st.channels)
              (st.sampleBuffer ++ feedSamples feeds)).2 },
          blocksEvents floatBE st.sinks st.sourceId st.streamId
            (drainBlocks (st.blockSize * st.channels)
              (st.sampleBuffer ++ feedSamples feeds)).1 st.sequence)
  | [], st => by
    intro h1 h2 h3 h4 h5 h6 h7
    have hb : st.sampleBuffer ++ feedSamples ([] : List (List Sample × List Sample)) =
        st.sampleBuffer := by
      simp [feedSamples]
    rw [hb, show drainBlocks (st.blockSize * st.channels) st.sampleBuffer =
        (([] : List (List (Option Sample))), st.sampleBuffer) from by
      rw [drainBlocks_eq]
      exact if_neg (by omega)]
    rfl
  | p :: feeds, st => by
    intro h1 h2 h3 h4 h5 h6 h7
    have hspec := drainBlocks_spec (st.blockSize * st.channels) h5
      (st.sampleBuffer ++ interleaveJS p.1 p.2).length
      (st.sampleBuffer ++ interleaveJS p.1 p.2) le_rfl
    have hblk : ∀ b ∈ (drainBlocks (st.blockSize * st.channels)
        (st.sampleBuffer ++ interleaveJS p.1 p.2)).1, 4 * b.length ≤ 65535 := by
      intro b hb
      rw [hspec.2.2.2 b hb]
      omega
    have hds : drainAndSend floatBE st (st.sampleBuffer ++ interleaveJS p.1 p.2) =
        .ok ({ st with
            sequence := seqIter st.sequence
              (drainBlocks (st.blockSize * st.channels)
                (st.sampleBuffer ++ interleaveJS p.1 p.2)).1.length
            sampleBuffer := (drainBlocks (st.blockSize * st.channels)
              (st.sampleBuffer ++ interleaveJS p.1 p.2)).2 },
          blocksEvents floatBE st.sinks st.sourceId st.streamId
            (drainBlocks (st.blockSize * st.channels)
              (st.sampleBuffer ++ interleaveJS p.1 p.2)).1 st.sequence) := by
      unfold drainAndSend
      rw [sendBlocks_ok floatBE hfl
        (drainBlocks (st.blockSize * st.channels)
          (st.sampleBuffer ++ interleaveJS p.1 p.2)).1
        { st with sampleBuffer := (drainBlocks (st.blockSize * st.channels)
            (st.sampleBuffer ++ interleaveJS p.1 p.2)).2 }
        h3 (Nat.le_of_lt h4) hblk]
    have hsa : sendAudio floatBE st p.1 p.2 none = .ok ({ st with
            sequence := seqIter st.sequence
              (drainBlocks (st.blockSize * st.channels)
                (st.sampleBuffer ++ interleaveJS p.1 p.2)).1.length
            sampleBuffer := (drainBlocks (st.blockSize * st.channels)
              (st.sampleBuffer ++ interleaveJS p.1 p.2)).2 },
          blocksEvents floatBE st.sinks st.sourceId st.streamId
            (drainBlocks (st.blockSize * st.channels)
              (st.sampleBuffer ++ interleaveJS p.1 p.2)).1 st.sequence) := by
      unfold sendAudio
      rw [if_neg (not_not_intro h1), if_neg (not_not_intro h2)]
      simp only [hds, List.nil_append]
    have hrem : (drainBlocks (st.blockSize * st.channels)
        (st.sampleBuffer ++ interleaveJS p.1 p.2)).2.length <
        st.blockSize * st.channels := by
      rw [hspec.2.1]
      exact Nat.mod_lt _ h5
    have hrec : run floatBE
        ({ st with
            sequence := seqIter st.sequence
              (drainBlocks (st.blockSize * st.channels)
                (st.sampleBuffer ++ interleaveJS p.1 p.2)).1.length
            sampleBuffer := (drainBlocks (st.blockSize * st.channels)
              (st.sampleBuffer ++ interleaveJS p.1 p.2)).2 })
        (feeds.map (fun p => Op.sendAudio p.1 p.2 none)) =
        .ok ({ st with
            sequence := seqIter (seqIter st.sequence
                (drainBlocks (st.blockSize * st.channels)
                  (st.sampleBuffer ++ interleaveJS p.1 p.2)).1.length)
              (drainBlocks (st.blockSize * st.channels)
                ((drainBlocks (st.blockSize * st.channels)
                  (st.sampleBuffer ++ interleaveJS p.1 p.2)).2 ++
                  feedSamples feeds)).1.length
            sampleBuffer := (drainBlocks (st.blockSize * st.channels)
              ((drainBlocks (st.blockSize * st.channels)
                (st.sampleBuffer ++ interleaveJS p.1 p.2)).2 ++
                feedSamples feeds)).2 },
          blocksEvents floatBE st.sinks st.sourceId st.streamId
            (drainBlocks (st.blockSize * st.channels)
              ((drainBlocks (st.blockSize * st.channels)
                (st.sampleBuffer ++ interleaveJS p.1 p.2)).2 ++
                feedSamples feeds)).1
            (seqIter st.sequence
              (drainBlocks (st.blockSize * st.channels)
                (st.sampleBuffer ++ interleaveJS p.1 p.2)).1.length)) :=
      run_sendAudio_ok floatBE hfl feeds _ h1 h2 h3
        (seqIter_lt st.sequence _ h4) h5 h6 hrem
    have hfeed : feedSamples (p :: feeds) =
        interleaveJS p.1 p.2 ++ feedSamples feeds := rfl
    rw [hfeed, ← List.append_assoc,
      drainBlocks_append (st.blockSize * st.channels) h5
        (st.sampleBuffer ++ interleaveJS p.1 p.2).length
        (st.sampleBuffer ++ interleaveJS p.1 p.2) (feedSamples feeds) le_rfl]
    simp only [List.length_append]
    rw [← seqIter_add, blocksEvents_append]
    exact run_cons_ok floatBE st _ _ _ _ _ _ hsa hrec

theorem strBytes_append (a b : String) :
    strBytes (a ++ b) = strBytes a ++ strBytes b := by
  unfold strBytes
  rw [show (a ++ b).toList = a.toList ++ b.toList from rfl, List.map_append]

/-- Every `/start` OSC message begins with the byte of `'/'`. -/
theorem buildStartBytes_head (s : AooState Sample) (sid : Int) :
    byteAt (buildStartBytes s sid) 0 = 47 := by
  unfold buildStartBytes
  rw [strBytes_append, strBytes_append]
  rfl

/-- A datagram is an audio frame exactly when its first byte is the AOO
binary sink-domain marker `0x81`. -/
def isFrame (e : Event) : Bool := byteAt e.bytes 0 == 129

theorem isFrame_start_event (s : AooState Sample) (h : String) (p : Nat)
    (sid : Int) : isFrame (Event.dgram h p (buildStartBytes s sid)) = false := by
  unfold isFrame
  rw [show (Event.dgram h p (buildStartBytes s sid)).bytes =
    buildStartBytes s sid from rfl, buildStartBytes_head]
  rfl

theorem filter_start_events (s : AooState Sample) (l : List (String × Sink)) :
    (l.map (fun kv => Event.dgram kv.2.host kv.2.port
      (buildStartBytes s kv.2.sinkId))).filter isFrame = [] := by
  induction l with
  | nil => rfl
  | cons kv t ih => simp [isFrame_start_event, ih]

/-- With a serializable stream id, in-range sequence and small blocks,
every datagram in `blocksEvents` is an audio frame. -/
theorem blocksEvents_filter (floatBE : Option Sample → List Nat)
    (hfl : ∀ x, (floatBE x).length = 4)
    (sinks : List (String × Sink)) (sourceId : Int) (streamId : OscVal)
    (sNum : List Nat) (hs : streamIdBytes streamId = .ok sNum) :
    ∀ (bs : List (List (Option Sample))) (q : Nat), q ≤ 2147483647 →
      (∀ b ∈ bs, 4 * b.length ≤ 65535) →
      (blocksEvents floatBE sinks sourceId streamId bs q).filter isFrame =
        blocksEvents floatBE sinks sourceId streamId bs q
  | [], q, _, _ => rfl
  | b :: bs, q, hq, hb => by
    have hall : ∀ e ∈ sinks.map (fun kv => Event.dgram kv.2.host kv.2.port
        (dataBytes kv.2.sinkId sourceId streamId q ((b.map floatBE).flatten))),
        isFrame e = true := by
      intro e he
      obtain ⟨kv, hkv, rfl⟩ := List.mem_map.mp he
      unfold isFrame
      rw [show (Event.dgram kv.2.host kv.2.port
          (dataBytes kv.2.sinkId sourceId streamId q ((b.map floatBE).flatten))).bytes =
        dataBytes kv.2.sinkId sourceId streamId q ((b.map floatBE).flatten) from rfl]
      rw [dataBytes_head kv.2.sinkId sourceId streamId q _ sNum hs hq
        (by rw [flatten_length_four floatBE hfl b]
            have := hb b (List.mem_cons_self b bs)
            omega)]
      rfl
    simp only [blocksEvents]
    rw [List.filter_append, List.filter_eq_self.mpr hall,
      blocksEvents_filter floatBE hfl sinks sourceId streamId sNum hs bs
        (seqAfter q) (Nat.le_of_lt (seqAfter_lt q))
        (fun x hx => hb x (List.mem_cons_of_mem b hx))]

theorem blocksEvents_single_length (floatBE : Option Sample → List Nat)
    (key : String) (sk : Sink) (sourceId : Int) (streamId : OscVal) :
    ∀ (bs : List (List (Option Sample))) (q : Nat),
      (blocksEvents floatBE [(key, sk)] sourceId streamId bs q).length = bs.length
  | [], _ => rfl
  | b :: bs, q => by
    simp only [blocksEvents, List.length_append, List.length_map,
      List.length_cons, List.length_nil,
      blocksEvents_single_length floatBE key sk sourceId streamId bs (seqAfter q)]
    omega

/-- With a single registered sink, the `j`-th emitted data message carries
the `j`-th drained block with the `j`-th wrapped sequence number. -/
theorem blocksEvents_single_getD (floatBE : Option Sample → List Nat)
    (key : String) (sk : Sink) (sourceId : Int) (streamId : OscVal) :
    ∀ (bs : List (List (Option Sample))) (q j : Nat), j < bs.length →
      (blocksEvents floatBE [(key, sk)] sourceId streamId bs q).getD j
          (Event.dgram "" 0 []) =
        Event.dgram sk.host sk.port
          (dataBytes sk.sinkId sourceId streamId (seqIter q j)
            (((bs.getD j []).map floatBE).flatten))
  | [], _, j, h => absurd h (by simp)
  | b :: bs, q, 0, _ => rfl
  | b :: bs, q, j + 1, h =>
    blocksEvents_single_getD floatBE key sk sourceId streamId bs (seqAfter q) j
      (Nat.lt_of_succ_lt_succ h)

/-- A drain-and-send pass over an arbitrary buffer from a state with
serializable stream id, in-range sequence and small blocks. -/
theorem drainAndSend_ok (floatBE : Option Sample → List Nat)
    (hfl : ∀ x, (floatBE x).length = 4) (s1 : AooState Sample)
    (buf : List (Option Sample))
    (hsid : isOkE (streamIdBytes s1.streamId) = true)
    (hq : s1.sequence ≤ 2147483647)
    (hn : 0 < s1.blockSize * s1.channels)
    (hpay : s1.blockSize * s1.channels * 4 ≤ 65535) :
    drainAndSend floatBE s1 buf = .ok
      ({ s1 with
          sequence := seqIter s1.sequence
            (drainBlocks (s1.blockSize * s1.channels) buf).1.length
          sampleBuffer := (drainBlocks (s1.blockSize * s1.channels) buf).2 },
        blocksEvents floatBE s1.sinks s1.sourceId s1.streamId
          (drainBlocks (s1.blockSize * s1.channels) buf).1 s1.sequence) := by
  have hspec := drainBlocks_spec (s1.blockSize * s1.channels) hn
    buf.length buf le_rfl
  have hblk : ∀ b ∈ (drainBlocks (s1.blockSize * s1.channels) buf).1,
      4 * b.length ≤ 65535 := by
    intro b hb
    rw [hspec.2.2.2 b hb]
    omega
  unfold drainAndSend
  rw [sendBlocks_ok floatBE hfl (drainBlocks (s1.blockSize * s1.channels) buf).1
    { s1 with sampleBuffer := (drainBlocks (s1.blockSize * s1.channels) buf).2 }
    hsid hq hblk]

/-- `sendAudio` on a streaming state before the announcement: the
`/start` broadcast result is followed by the drain, and the event lists
concatenate. -/
theorem sendAudio_announce (floatBE : Option Sample → List Nat)
    (s s1 s2 : AooState Sample) (E0 E1 : List Event)
    (l r : List Sample) (sr : Option Nat)
    (hstr : s.isStreaming = true) (hns : s.startSent = false)
    (h1 : sendStartToAllSinks (applyRateOverride s sr) = .ok (s1, E0))
    (h2 : drainAndSend floatBE s1 (s1.sampleBuffer ++ interleaveJS l r) =
      .ok (s2, E1)) :
    sendAudio floatBE s l r sr = .ok (s2, E0 ++ E1) := by
  unfold sendAudio
  rw [if_neg (not_not_intro hstr),
    if_pos (by rw [hns]; exact Bool.false_ne_true), h1]
  simp only [h2]

theorem feedSamples_length (feeds : List (List Sample × List Sample)) :
    (feedSamples feeds).length = 2 * (feeds.map (fun p => p.1.length)).sum := by
  induction feeds with
  | nil => rfl
  | cons p t ih =>
    show (interleaveJS p.1 p.2 ++ feedSamples t).length = _
    rw [List.length_append, interleaveJS_length, ih]
    simp only [List.map_cons, List.sum_cons]
    omega

/-- A whole streaming session: `start()` then a nonempty list of
`sendAudio` calls. The first call broadcasts `/start` to the active
sinks; every full block of the cumulative interleaved feed becomes one
data message per sink with consecutively wrapped sequence numbers
starting at 0, and the remainder stays in the buffer. -/
theorem run_session_ok (floatBE : Option Sample → List Nat)
    (hfl : ∀ x, (floatBE x).length = 4) (s0 : AooState Sample)
    (p : List Sample × List Sample) (feeds : List (List Sample × List Sample))
    (hwf : WF s0) (hstream : s0.isStreaming = false)
    (hn : 0 < s0.blockSize * s0.channels)
    (hpay : s0.blockSize * s0.channels * 4 ≤ 65535) :
    run floatBE (start s0)
      ((p :: feeds).map (fun p => Op.sendAudio p.1 p.2 none)) =
      .ok ({ start s0 with
          startSent := true
          sequence := seqIter 0 (drainBlocks (s0.blockSize * s0.channels)
            (feedSamples (p :: feeds))).1.length
          sampleBuffer := (drainBlocks (s0.blockSize * s0.channels)
            (feedSamples (p :: feeds))).2 },
        ((s0.sinks.filter (fun kv => kv.2.active)).map (fun kv =>
          Event.dgram kv.2.host kv.2.port
            (buildStartBytes (start s0) kv.2.sinkId))) ++
          blocksEvents floatBE s0.sinks s0.sourceId s0.streamId
            (drainBlocks (s0.blockSize * s0.channels)
              (feedSamples (p :: feeds))).1 0) := by
  have hr0 : start s0 = { s0 with
      isStreaming := true
      sequence := 0
      sampleBuffer := []
      startSent := false
      detectedSampleRate := none } := by
    unfold start
    rw [if_neg (by rw [hstream]; exact Bool.false_ne_true)]
  have hwfR : WF ({ s0 with
      isStreaming := true
      sequence := 0
      sampleBuffer := []
      startSent := false
      detectedSampleRate := none } : AooState Sample) := by
    rw [← hr0]
    exact WF_start s0 hwf
  have h1 := sendStartToAllSinks_ok ({ s0 with
      isStreaming := true
      sequence := 0
      sampleBuffer := []
      startSent := false
      detectedSampleRate := none } : AooState Sample) hwfR
  have h2 := drainAndSend_ok floatBE hfl ({ s0 with
      isStreaming := true
      sequence := 0
      sampleBuffer := []
      startSent := true
      detectedSampleRate := none } : AooState Sample)
    (({ s0 with
        isStreaming := true
        sequence := 0
        sampleBuffer := []
        startSent := true
        detectedSampleRate := none } : AooState Sample).sampleBuffer ++
      interleaveJS p.1 p.2)
    hwf.2.1 (Nat.zero_le _) hn hpay
  have hsa := sendAudio_announce floatBE _ _ _ _ _ p.1 p.2 none rfl rfl h1 h2
  have hrem : (drainBlocks (s0.blockSize * s0.channels)
      (interleaveJS p.1 p.2)).2.length < s0.blockSize * s0.channels := by
    rw [(drainBlocks_spec (s0.blockSize * s0.channels) hn
      (interleaveJS p.1 p.2).length (interleaveJS p.1 p.2) le_rfl).2.1]
    exact Nat.mod_lt _ hn
  have hrec : run floatBE ({ s0 with
      isStreaming := true
      sequence := seqIter 0 (drainBlocks (s0.blockSize * s0.channels)
        (interleaveJS p.1 p.2)).1.length
      sampleBuffer := (drainBlocks (s0.blockSize * s0.channels)
        (interleaveJS p.1 p.2)).2
      startSent := true
      detectedSampleRate := none } : AooState Sample)
      (feeds.map (fun p => Op.sendAudio p.1 p.2 none)) =
      .ok ({ s0 with
          isStreaming := true
          sequence := seqIter (seqIter 0 (drainBlocks (s0.blockSize * s0.channels)
              (interleaveJS p.1 p.2)).1.length)
            (drainBlocks (s0.blockSize * s0.channels)
              ((drainBlocks (s0.blockSize * s0.channels)
                (interleaveJS p.1 p.2)).2 ++ feedSamples feeds)).1.length
          sampleBuffer := (drainBlocks (s0.blockSize * s0.channels)
            ((drainBlocks (s0.blockSize * s0.channels)
              (interleaveJS p.1 p.2)).2 ++ feedSamples feeds)).2
          startSent := true
          detectedSampleRate := none },
        blocksEvents floatBE s0.sinks s0.sourceId s0.streamId
          (drainBlocks (s0.blockSize * s0.channels)
            ((drainBlocks (s0.blockSize * s0.channels)
              (interleaveJS p.1 p.2)).2 ++ feedSamples feeds)).1
          (seqIter 0 (drainBlocks (s0.blockSize * s0.channels)
            (interleaveJS p.1 p.2)).1.length)) :=
    run_sendAudio_ok floatBE hfl feeds _ rfl rfl hwf.2.1
      (seqIter_lt 0 _ (by omega)) hn hpay hrem
  rw [hr0]
  rw [show feedSamples (p :: feeds) =
      interleaveJS p.1 p.2 ++ feedSamples feeds from rfl,
    drainBlocks_append (s0.blockSize * s0.channels) hn
      (interleaveJS p.1 p.2).length (interleaveJS p.1 p.2)
      (feedSamples feeds) le_rfl]
  simp only [List.length_append]
  rw [← seqIter_add, blocksEvents_append, ← List.append_assoc]
  exact run_cons_ok floatBE _ _ _ _ _ _ _ hsa hrec

/-- Whether a datagram takes the `/invite` branch of the dispatcher with
at least two successfully decoded arguments — the condition under which
the handler adopts a new stream identity (and resets the sequence). -/
def inviteAccepted (msg : List Nat) : Bool :=
  if 4 ≤ msg.length ∧ byteAt msg 0 &&& 128 ≠ 0 then false
  else if 0 < jsBufIndexOf msg 0 0 then
    if containsSeq (jsToStringAscii msg 0 (jsBufIndexOf msg 0 0))
        (strBytes "/invite") then
      match parseOscArgs msg (jsBufIndexOf msg 0 0).toNat with
      | .ok args => decide (2 ≤ args.length)
      | .error _ => false
    else false
  else false

/-- The sequence value the spec mandates after one operation: reset to 0
by `start()` when not streaming and by an accepted `/invite`, advanced
once per drained block by a streaming `sendAudio`, untouched everywhere
else. -/
def expectedSeq (s : AooState Sample) : Op Sample → Nat
  | .start => if s.isStreaming then s.sequence else 0
  | .stop => s.sequence
  | .sendAudio l r _ =>
    if s.isStreaming then
      seqIter s.sequence
        (drainBlocks (s.blockSize * s.channels)
          (s.sampleBuffer ++ interleaveJS l r)).1.length
    else s.sequence
  | .updateSampleRate _ => s.sequence
  | .addSink _ _ _ => s.sequence
  | .recv msg _ _ _ => if inviteAccepted msg then 0 else s.sequence

theorem inviteAccepted_bin (msg : List Nat)
    (hbin : 4 ≤ msg.length ∧ byteAt msg 0 &&& 128 ≠ 0) :
    inviteAccepted msg = false := by
  unfold inviteAccepted
  rw [if_pos hbin]

theorem inviteAccepted_nonull (msg : List Nat)
    (hbin : ¬(4 ≤ msg.length ∧ byteAt msg 0 &&& 128 ≠ 0))
    (hnull : ¬0 < jsBufIndexOf msg 0 0) :
    inviteAccepted msg = false := by
  unfold inviteAccepted
  rw [if_neg hbin, if_neg hnull]

theorem inviteAccepted_noinv (msg : List Nat)
    (hbin : ¬(4 ≤ msg.length ∧ byteAt msg 0 &&& 128 ≠ 0))
    (hnull : 0 < jsBufIndexOf msg 0 0)
    (hinv : containsSeq (jsToStringAscii msg 0 (jsBufIndexOf msg 0 0))
      (strBytes "/invite") = false) :
    inviteAccepted msg = false := by
  unfold inviteAccepted
  rw [if_neg hbin, if_pos hnull, hinv, if_neg Bool.false_ne_true]

theorem inviteAccepted_inv_err (msg : List Nat) (e : Unit)
    (hbin : ¬(4 ≤ msg.length ∧ byteAt msg 0 &&& 128 ≠ 0))
    (hnull : 0 < jsBufIndexOf msg 0 0)
    (hinv : containsSeq (jsToStringAscii msg 0 (jsBufIndexOf msg 0 0))
      (strBytes "/invite") = true)
    (hargs : parseOscArgs msg (jsBufIndexOf msg 0 0).toNat = .error e) :
    inviteAccepted msg = false := by
  unfold inviteAccepted
  rw [if_neg hbin, if_pos hnull, if_pos hinv]
  simp only [hargs]

theorem inviteAccepted_inv_ok (msg : List Nat) (args : List OscVal)
    (hbin : ¬(4 ≤ msg.length ∧ byteAt msg 0 &&& 128 ≠ 0))
    (hnull : 0 < jsBufIndexOf msg 0 0)
    (hinv : containsSeq (jsToStringAscii msg 0 (jsBufIndexOf msg 0 0))
      (strBytes "/invite") = true)
    (hargs : parseOscArgs msg (jsBufIndexOf msg 0 0).toNat = .ok args) :
    inviteAccepted msg = decide (2 ≤ args.length) := by
  unfold inviteAccepted
  rw [if_neg hbin, if_pos hnull, if_pos hinv]
  simp only [hargs]

/-- A successful `/start` branch never changes the sequence counter. -/
theorem startAckHandler_seq (s s1 : AooState Sample) (msg : List Nat)
    (host : String) (port : Nat) (nullIdx : Nat) (evs : List Event)
    (h : startAckHandler s msg host port nullIdx = .ok (s1, evs)) :
    s1.sequence = s.sequence := by
  unfold startAckHandler at h
  cases hargs : parseOscArgs msg nullIdx with
  | error e =>
    simp only [hargs] at h
    by_cases hmh : mapHas s.sinks (sinkKey host port 1) = true
    · rw [if_pos hmh] at h
      split at h
      · cases h
      · simp only [Except.ok.injEq, Prod.mk.injEq] at h
        obtain ⟨h1, _⟩ := h
        rw [← h1]
    · rw [if_neg hmh] at h
      split at h
      · cases h
      · simp only [Except.ok.injEq, Prod.mk.injEq] at h
        obtain ⟨h1, _⟩ := h
        rw [← h1]
        rfl
  | ok args =>
    simp only [hargs] at h
    by_cases hlen : 2 ≤ args.length
    · rw [if_pos hlen] at h
      dsimp only at h
      by_cases hmh : mapHas s.sinks (sinkKey host port 1) = true
      · rw [if_pos hmh] at h
        split at h
        · cases h
        · simp only [Except.ok.injEq, Prod.mk.injEq] at h
          obtain ⟨h1, _⟩ := h
          rw [← h1]
      · rw [if_neg hmh] at h
        split at h
        · cases h
        · simp only [Except.ok.injEq, Prod.mk.injEq] at h
          obtain ⟨h1, _⟩ := h
          rw [← h1]
          rfl
    · rw [if_neg hlen] at h
      by_cases hmh : mapHas s.sinks (sinkKey host port 1) = true
      · rw [if_pos hmh] at h
        split at h
        · cases h
        · simp only [Except.ok.injEq, Prod.mk.injEq] at h
          obtain ⟨h1, _⟩ := h
          rw [← h1]
      · rw [if_neg hmh] at h
        split at h
        · cases h
        · simp only [Except.ok.injEq, Prod.mk.injEq] at h
          obtain ⟨h1, _⟩ := h
          rw [← h1]
          rfl

/-- The dispatcher's sequence discipline: one step of any public
operation leaves the sequence at exactly the spec-mandated value. -/
theorem step_sequence (floatBE : Option Sample → List Nat)
    (s s1 : AooState Sample) (op : Op Sample) (evs : List Event)
    (h : step floatBE s op = .ok (s1, evs)) :
    s1.sequence = expectedSeq s op := by
  cases op with
  | start =>
    simp only [step, Except.ok.injEq, Prod.mk.injEq] at h
    obtain ⟨h1, _⟩ := h
    rw [← h1]
    simp only [expectedSeq]
    unfold start
    split <;> rfl
  | stop =>
    simp only [step, Except.ok.injEq, Prod.mk.injEq] at h
    obtain ⟨h1, _⟩ := h
    rw [← h1]
    rfl
  | addSink host port sinkId =>
    simp only [step, Except.ok.injEq, Prod.mk.injEq] at h
    obtain ⟨h1, _⟩ := h
    rw [← h1]
    rfl
  | updateSampleRate r =>
    simp only [step] at h
    unfold updateSampleRate at h
    simp only [expectedSeq]
    split at h
    · simp only [Except.ok.injEq, Prod.mk.injEq] at h
      obtain ⟨h1, _⟩ := h
      rw [← h1]
      unfold setSampleRate
      split <;> rfl
    · split at h
      · unfold rebroadcastStart at h
        split at h
        · cases h
        · simp only [Except.ok.injEq, Prod.mk.injEq] at h
          obtain ⟨h1, _⟩ := h
          rw [← h1]
      · simp only [Except.ok.injEq, Prod.mk.injEq] at h
        obtain ⟨h1, _⟩ := h
        rw [← h1]
  | sendAudio l r sr =>
    simp only [step] at h
    unfold sendAudio at h
    simp only [expectedSeq]
    by_cases hstr : s.isStreaming = true
    · rw [if_neg (not_not_intro hstr)] at h
      rw [if_pos hstr]
      split at h
      · cases h
      · rename_i sA evA hA
        have hfields : sA.sequence = s.sequence ∧ sA.sampleBuffer = s.sampleBuffer ∧
            sA.blockSize = s.blockSize ∧ sA.channels = s.channels := by
          split at hA
          · have hx := sendStartToAllSinks_fields _ _ _ hA
            rw [hx]
            have hf := applyRateOverride_fields s sr
            exact ⟨hf.2.2.2.2.2.2.1, hf.1, hf.2.1, hf.2.2.1⟩
          · simp only [Except.ok.injEq, Prod.mk.injEq] at hA
            rw [← hA.1]
            exact ⟨rfl, rfl, rfl, rfl⟩
        split at h
        · cases h
        · rename_i sB evB hB
          simp only [Except.ok.injEq, Prod.mk.injEq] at h
          obtain ⟨h1, _⟩ := h
          rw [← h1]
          unfold drainAndSend at hB
          split at hB
          · cases hB
          · rename_i sC evC hC
            simp only [Except.ok.injEq, Prod.mk.injEq] at hB
            obtain ⟨h2, _⟩ := hB
            rw [← h2]
            have hseq := sendBlocks_seq floatBE _ _ _ _ hC
            rw [hseq]
            show seqIter sA.sequence
              ((drainBlocks (sA.blockSize * sA.channels)
                (sA.sampleBuffer ++ interleaveJS l r)).1.length) = _
            rw [hfields.1, hfields.2.1, hfields.2.2.1, hfields.2.2.2]
    · rw [if_pos hstr] at h
      rw [if_neg hstr]
      simp only [Except.ok.injEq, Prod.mk.injEq] at h
      obtain ⟨h1, _⟩ := h
      rw [← h1]
  | recv msg host port now =>
    simp only [step] at h
    unfold handleMessage at h
    simp only [expectedSeq]
    by_cases hbin : 4 ≤ msg.length ∧ byteAt msg 0 &&& 128 ≠ 0
    · rw [if_pos hbin] at h
      simp only [Except.ok.injEq, Prod.mk.injEq] at h
      obtain ⟨h1, _⟩ := h
      rw [← h1, inviteAccepted_bin msg hbin, if_neg Bool.false_ne_true]
    · rw [if_neg hbin] at h
      by_cases hnull : 0 < jsBufIndexOf msg 0 0
      · rw [if_pos hnull] at h
        cases hinv : containsSeq (jsToStringAscii msg 0 (jsBufIndexOf msg 0 0))
            (strBytes "/invite") with
        | true =>
          rw [if_pos hinv] at h
          have hih := Except.ok.inj h
          unfold inviteHandler at hih
          cases hargs : parseOscArgs msg (jsBufIndexOf msg 0 0).toNat with
          | error e =>
            simp only [hargs, Prod.mk.injEq] at hih
            obtain ⟨h1, _⟩ := hih
            rw [← h1, inviteAccepted_inv_err msg e hbin hnull hinv hargs,
              if_neg Bool.false_ne_true]
          | ok args =>
            simp only [hargs] at hih
            rw [inviteAccepted_inv_ok msg args hbin hnull hinv hargs]
            by_cases hlen : 2 ≤ args.length
            · rw [if_pos hlen] at hih
              rw [if_pos (decide_eq_true hlen)]
              cases hsend : sendStartOSC
                  (addSink { s with
                    streamId := args.getD 1 .vNull
                    formatId := 0
                    sequence := 0 } host port 1) host port 1 with
              | error e =>
                simp only [hsend, Prod.mk.injEq] at hih
                obtain ⟨h1, _⟩ := hih
                rw [← h1]
                rfl
              | ok ev =>
                simp only [hsend, Prod.mk.injEq] at hih
                obtain ⟨h1, _⟩ := hih
                rw [← h1]
                unfold start
                split <;> rfl
            · rw [if_neg hlen] at hih
              simp only [Prod.mk.injEq] at hih
              obtain ⟨h1, _⟩ := hih
              rw [← h1, if_neg (by rw [decide_eq_false hlen]; exact Bool.false_ne_true)]
        | false =>
          rw [if_neg (by simp [hinv])] at h
          rw [inviteAccepted_noinv msg hbin hnull hinv, if_neg Bool.false_ne_true]
          cases hst : containsSeq (jsToStringAscii msg 0 (jsBufIndexOf msg 0 0))
              (strBytes "/start") with
          | true =>
            rw [if_pos hst] at h
            exact startAckHandler_seq s s1 msg host port _ evs h
          | false =>
            rw [if_neg (by simp [hst])] at h
            cases hping : containsSeq (jsToStringAscii msg 0 (jsBufIndexOf msg 0 0))
                (strBytes "/ping") with
            | true =>
              rw [if_pos hping] at h
              simp only [Except.ok.injEq, Prod.mk.injEq] at h
              obtain ⟨h1, _⟩ := h
              rw [← h1]
            | false =>
              rw [if_neg (by simp [hping])] at h
              simp only [Except.ok.injEq, Prod.mk.injEq] at h
              obtain ⟨h1, _⟩ := h
              rw [← h1]
      · rw [if_neg hnull] at h
        simp only [Except.ok.injEq, Prod.mk.injEq] at h
        obtain ⟨h1, _⟩ := h
        rw [← h1, inviteAccepted_nonull msg hbin hnull, if_neg Bool.false_ne_true]

theorem getD_mem {α : Type} : ∀ (l : List α) (n : Nat) (d : α),
    n < l.length → l.getD n d ∈ l
  | a :: t, 0, _, _ => List.mem_cons_self a t
  | a :: t, n + 1, d, h =>
    List.mem_cons_of_mem a (getD_mem t n d (Nat.lt_of_succ_lt_succ h))
  | [], _, _, h => absurd h (by simp)

/-- A single-sink session: the audio frames of the emitted traffic are
exactly the per-block data messages, and the final state carries the
iterated sequence and the drain remainder. -/
theorem session_frames (floatBE : Option Sample → List Nat)
    (hfl : ∀ x, (floatBE x).length = 4) (s0 : AooState Sample)
    (key : String) (sk : Sink) (p : List Sample × List Sample)
    (feeds : List (List Sample × List Sample))
    (hwf : WF s0) (hstream : s0.isStreaming = false)
    (hn : 0 < s0.blockSize * s0.channels)
    (hpay : s0.blockSize * s0.channels * 4 ≤ 65535)
    (hsinks : s0.sinks = [(key, sk)]) :
    ∃ sF evs, run floatBE (start s0)
        ((p :: feeds).map (fun q => Op.sendAudio q.1 q.2 none)) = .ok (sF, evs) ∧
      evs.filter isFrame = blocksEvents floatBE [(key, sk)] s0.sourceId s0.streamId
        (drainBlocks (s0.blockSize * s0.channels) (feedSamples (p :: feeds))).1 0 ∧
      sF.sequence = seqIter 0 (drainBlocks (s0.blockSize * s0.channels)
        (feedSamples (p :: feeds))).1.length ∧
      sF.sampleBuffer = (drainBlocks (s0.blockSize * s0.channels)
        (feedSamples (p :: feeds))).2 := by
  obtain ⟨sNum, hs⟩ : ∃ sNum, streamIdBytes s0.streamId = .ok sNum := by
    cases h' : streamIdBytes s0.streamId
    · have hok := hwf.2.1
      rw [h'] at hok
      exact absurd hok Bool.false_ne_true
    · exact ⟨_, rfl⟩
  have hblocks : ∀ b ∈ (drainBlocks (s0.blockSize * s0.channels)
      (feedSamples (p :: feeds))).1, 4 * b.length ≤ 65535 := by
    intro b hb
    rw [(drainBlocks_spec (s0.blockSize * s0.channels) hn
      (feedSamples (p :: feeds)).length _ le_rfl).2.2.2 b hb]
    omega
  refine ⟨_, _, run_session_ok floatBE hfl s0 p feeds hwf hstream hn hpay,
    ?_, rfl, rfl⟩
  rw [List.filter_append, filter_start_events,
    blocksEvents_filter floatBE hfl s0.sinks s0.sourceId s0.streamId sNum hs _ 0
      (Nat.zero_le _) hblocks, List.nil_append, hsinks]

/-- C3: in a single-sink session consisting of `start()` followed by
`sendAudio` calls, the audio frames on the wire carry the sequence
numbers `0, 1, …, N−1` modulo `0x7FFFFFFF` in bytes 8–11 (one increment
per frame, wrapping to 0 at `0x7FFFFFFF` inclusive), and after the run
the counter equals `N mod 0x7FFFFFFF`; moreover for every state and
every public operation the post-step sequence is exactly the mandated
value: reset to 0 by a `start()` while stopped and by an accepted
`/invite`, advanced once per drained block by a streaming `sendAudio`,
and unchanged everywhere else. -/
theorem sequenceMonotonicity (floatBE : Option Sample → List Nat)
    (hfl : ∀ x, (floatBE x).length = 4) (s0 : AooState Sample)
    (key : String) (sk : Sink) (p : List Sample × List Sample)
    (feeds : List (List Sample × List Sample))
    (hwf : WF s0) (hstream : s0.isStreaming = false)
    (hn : 0 < s0.blockSize * s0.channels)
    (hpay : s0.blockSize * s0.channels * 4 ≤ 65535)
    (hsinks : s0.sinks = [(key, sk)]) :
    (∃ sF evs, run floatBE (start s0)
        ((p :: feeds).map (fun q => Op.sendAudio q.1 q.2 none)) = .ok (sF, evs) ∧
      (evs.filter isFrame).length = (drainBlocks (s0.blockSize * s0.channels)
        (feedSamples (p :: feeds))).1.length ∧
      (∀ j, j < (evs.filter isFrame).length →
        readInt32BE ((evs.filter isFrame).getD j (Event.dgram "" 0 [])).bytes 8 =
          some ((j % 2147483647 : Nat) : Int)) ∧
      sF.sequence = (drainBlocks (s0.blockSize * s0.channels)
        (feedSamples (p :: feeds))).1.length % 2147483647) ∧
    ∀ (t t1 : AooState Sample) (op : Op Sample) (evs1 : List Event),
      step floatBE t op = .ok (t1, evs1) → t1.sequence = expectedSeq t op := by
  constructor
  · obtain ⟨sNum, hs⟩ : ∃ sNum, streamIdBytes s0.streamId = .ok sNum := by
      cases h' : streamIdBytes s0.streamId
      · have hok := hwf.2.1
        rw [h'] at hok
        exact absurd hok Bool.false_ne_true
      · exact ⟨_, rfl⟩
    obtain ⟨sF, evs, hrun, hfilter, hseq, hbuf⟩ :=
      session_frames floatBE hfl s0 key sk p feeds hwf hstream hn hpay hsinks
    refine ⟨sF, evs, hrun, ?_, ?_, ?_⟩
    · rw [hfilter, blocksEvents_single_length]
    · intro j hj
      rw [hfilter] at hj ⊢
      rw [blocksEvents_single_length] at hj
      rw [blocksEvents_single_getD floatBE key sk s0.sourceId s0.streamId _ 0 j hj]
      simp only [Event.bytes]
      rw [dataBytes_seq sk.sinkId s0.sourceId s0.streamId (seqIter 0 j) _ sNum hs
        (Nat.le_of_lt (seqIter_lt 0 j (by omega)))
        (by rw [flatten_length_four floatBE hfl,
              (drainBlocks_spec (s0.blockSize * s0.channels) hn
                (feedSamples (p :: feeds)).length _ le_rfl).2.2.2 _
                (getD_mem _ j [] hj)]
            omega)]
      rw [seqIter_mod j 0 (by omega), Nat.zero_add]
    · rw [hseq, seqIter_mod _ 0 (by omega), Nat.zero_add]
  · intro t t1 op evs1 hstep
    exact step_sequence floatBE t t1 op evs1 hstep

/-- Witness for `sequenceMonotonicity`: one sink, blockSize 1, stereo
feed of three sample pairs — three frames numbered 0, 1, 2. -/
theorem sequenceMonotonicity_witness :
    ∃ sF evs, run (fun (_ : Option Nat) => [0, 0, 0, 0])
        (start { initState Nat 2 48000 1 1 9998 1000 with
          sinks := [("k", Sink.mk "h" 7 1 true)] })
        (([(([1, 2, 3] : List Nat), ([4, 5, 6] : List Nat))]).map
          (fun q => Op.sendAudio q.1 q.2 none)) = .ok (sF, evs) ∧
      (evs.filter isFrame).length = 3 ∧
      (∀ j, j < (evs.filter isFrame).length →
        readInt32BE ((evs.filter isFrame).getD j (Event.dgram "" 0 [])).bytes 8 =
          some ((j % 2147483647 : Nat) : Int)) ∧
      sF.sequence = 3 :=
  (sequenceMonotonicity (fun _ => [0, 0, 0, 0]) (fun _ => rfl)
    { initState Nat 2 48000 1 1 9998 1000 with
      sinks := [("k", Sink.mk "h" 7 1 true)] }
    "k" (Sink.mk "h" 7 1 true) ([1, 2, 3], [4, 5, 6]) []
    (by decide) rfl (by decide) (by decide) rfl).1

/-- C4: in a streaming single-sink session with `channels = 2`, pushing a
cumulative total of `k` stereo sample pairs (with `k` not a multiple of
`blockSize`) retains exactly `(k mod blockSize) * 2` samples in the
buffer, emits exactly `⌊k / blockSize⌋` audio frames, and each frame's
payload is exactly the corresponding full block of
`blockSize * channels` samples drained from the head of the buffer in
FIFO order (the drained blocks concatenated with the final buffer
reconstitute the whole interleaved feed). -/
theorem bufferingExactness (floatBE : Option Sample → List Nat)
    (hfl : ∀ x, (floatBE x).length = 4) (s0 : AooState Sample)
    (key : String) (sk : Sink) (p : List Sample × List Sample)
    (feeds : List (List Sample × List Sample))
    (hwf : WF s0) (hstream : s0.isStreaming = false)
    (hch : s0.channels = 2) (hB : 0 < s0.blockSize)
    (hpay : s0.blockSize * 2 * 4 ≤ 65535)
    (hsinks : s0.sinks = [(key, sk)])
    (hstereo : ∀ q ∈ p :: feeds, q.2.length = q.1.length)
    (hnd : ¬ s0.blockSize ∣ ((p :: feeds).map (fun q => q.1.length)).sum) :
    ∃ sF evs, run floatBE (start s0)
        ((p :: feeds).map (fun q => Op.sendAudio q.1 q.2 none)) = .ok (sF, evs) ∧
      sF.sampleBuffer.length =
        (((p :: feeds).map (fun q => q.1.length)).sum % s0.blockSize) * 2 ∧
      (evs.filter isFrame).length =
        ((p :: feeds).map (fun q => q.1.length)).sum / s0.blockSize ∧
      (∀ j, j < (evs.filter isFrame).length →
        ((evs.filter isFrame).getD j (Event.dgram "" 0 [])).bytes.drop 16 =
          (((drainBlocks (s0.blockSize * 2)
            (feedSamples (p :: feeds))).1.getD j []).map floatBE).flatten) ∧
      (drainBlocks (s0.blockSize * 2) (feedSamples (p :: feeds))).1.flatten ++
        sF.sampleBuffer = feedSamples (p :: feeds) ∧
      ∀ b ∈ (drainBlocks (s0.blockSize * 2) (feedSamples (p :: feeds))).1,
        b.length = s0.blockSize * 2 := by
  have hn : 0 < s0.blockSize * s0.channels := by
    rw [hch]
    omega
  have hn2 : 0 < s0.blockSize * 2 := by omega
  obtain ⟨sNum, hs⟩ : ∃ sNum, streamIdBytes s0.streamId = .ok sNum := by
    cases h' : streamIdBytes s0.streamId
    · have hok := hwf.2.1
      rw [h'] at hok
      exact absurd hok Bool.false_ne_true
    · exact ⟨_, rfl⟩
  obtain ⟨sF, evs, hrun, hfilter, hseq, hbuf⟩ :=
    session_frames floatBE hfl s0 key sk p feeds hwf hstream hn
      (by rw [hch]; exact hpay) hsinks
  rw [hch] at hfilter hbuf
  have hspec := drainBlocks_spec (s0.blockSize * 2) hn2
    (feedSamples (p :: feeds)).length (feedSamples (p :: feeds)) le_rfl
  refine ⟨sF, evs, hrun, ?_, ?_, ?_, ?_, hspec.2.2.2⟩
  · rw [hbuf, hspec.2.1, feedSamples_length,
      show s0.blockSize * 2 = 2 * s0.blockSize from Nat.mul_comm _ _,
      Nat.mul_mod_mul_left]
    omega
  · rw [hfilter, blocksEvents_single_length, hspec.2.2.1, feedSamples_length,
      show s0.blockSize * 2 = 2 * s0.blockSize from Nat.mul_comm _ _,
      Nat.mul_div_mul_left _ _ (by omega)]
  · intro j hj
    rw [hfilter] at hj ⊢
    rw [blocksEvents_single_length] at hj
    rw [blocksEvents_single_getD floatBE key sk s0.sourceId s0.streamId _ 0 j hj]
    simp only [Event.bytes]
    exact dataBytes_payload sk.sinkId s0.sourceId s0.streamId (seqIter 0 j) _ sNum hs
      (Nat.le_of_lt (seqIter_lt 0 j (by omega)))
      (by rw [flatten_length_four floatBE hfl, hspec.2.2.2 _ (getD_mem _ j [] hj)]
          omega)
  · rw [hbuf]
    exact hspec.1

/-- Witness for `bufferingExactness`: blockSize 2, three stereo pairs —
one full frame of four samples emitted, two samples retained. -/
theorem bufferingExactness_witness :
    ∃ sF evs, run (fun (_ : Option Nat) => [0, 0, 0, 0])
        (start { initState Nat 2 48000 2 1 9998 1000 with
          sinks := [("k", Sink.mk "h" 7 1 true)] })
        (([(([1, 2, 3] : List Nat), ([4, 5, 6] : List Nat))]).map
          (fun q => Op.sendAudio q.1 q.2 none)) = .ok (sF, evs) ∧
      sF.sampleBuffer.length = 2 ∧
      (evs.filter isFrame).length = 1 ∧
      (∀ j, j < (evs.filter isFrame).length →
        ((evs.filter isFrame).getD j (Event.dgram "" 0 [])).bytes.drop 16 =
          (((drainBlocks 4
            (feedSamples [([1, 2, 3], [4, 5, 6])])).1.getD j []).map
              (fun (_ : Option Nat) => [0, 0, 0, 0])).flatten) ∧
      [some 1, some 4, some 2, some 5] ++ sF.sampleBuffer =
        [some 1, some 4, some 2, some 5, some 3, some 6] ∧
      ∀ b ∈ [[(some 1 : Option Nat), some 4, some 2, some 5]], b.length = 4 :=
  (bufferingExactness (fun _ => [0, 0, 0, 0]) (fun _ => rfl)
    { initState Nat 2 48000 2 1 9998 1000 with
      sinks := [("k", Sink.mk "h" 7 1 true)] }
    "k" (Sink.mk "h" 7 1 true) ([1, 2, 3], [4, 5, 6]) []
    (by decide) rfl rfl (by decide) (by decide) rfl (by decide) (by decide))

/-! ### C1 — OSC codec round-trip -/

/-- Well-formed encodable argument for the amended round-trip: an int32
`i`, an `s` whose string bytes are printable-ASCII-like (non-NUL, high
bit clear), or a `b` whose blob bytes fit in one byte with an int32-sized
length. -/
def argOK (a : Nat × OscVal) : Bool :=
  if a.1 = 105 then
    match a.2 with
    | .vInt n => decide (-2147483648 ≤ n ∧ n ≤ 2147483647)
    | _ => false
  else if a.1 = 115 then
    match a.2 with
    | .vStr s => s.all (fun c => decide (0 < c ∧ c < 128))
    | _ => false
  else if a.1 = 98 then
    match a.2 with
    | .vBlob b => b.all (fun c => decide (c < 256)) && decide (b.length ≤ 2147483647)
    | _ => false
  else false

theorem argOK_cases (t : Nat) (v : OscVal) (h : argOK (t, v) = true) :
    (∃ n, t = 105 ∧ v = OscVal.vInt n ∧ -2147483648 ≤ n ∧ n ≤ 2147483647) ∨
    (∃ sb, t = 115 ∧ v = OscVal.vStr sb ∧ ∀ c ∈ sb, 0 < c ∧ c < 128) ∨
    (∃ bb, t = 98 ∧ v = OscVal.vBlob bb ∧ (∀ c ∈ bb, c < 256) ∧
      bb.length ≤ 2147483647) := by
  unfold argOK at h
  by_cases h105 : t = 105
  · rw [if_pos h105] at h
    subst h105
    cases v with
    | vInt n =>
      exact Or.inl ⟨n, rfl, rfl, (of_decide_eq_true h).1, (of_decide_eq_true h).2⟩
    | vFloat bs => exact absurd h Bool.false_ne_true
    | vStr bs => exact absurd h Bool.false_ne_true
    | vBlob bs => exact absurd h Bool.false_ne_true
    | vBool b => exact absurd h Bool.false_ne_true
    | vNull => exact absurd h Bool.false_ne_true
    | vBig n => exact absurd h Bool.false_ne_true
  · rw [if_neg h105] at h
    by_cases h115 : t = 115
    · rw [if_pos h115] at h
      subst h115
      cases v with
      | vStr sb =>
        refine Or.inr (Or.inl ⟨sb, rfl, rfl, ?_⟩)
        simp only [List.all_eq_true, decide_eq_true_eq] at h
        exact h
      | vInt n => exact absurd h Bool.false_ne_true
      | vFloat bs => exact absurd h Bool.false_ne_true
      | vBlob bs => exact absurd h Bool.false_ne_true
      | vBool b => exact absurd h Bool.false_ne_true
      | vNull => exact absurd h Bool.false_ne_true
      | vBig n => exact absurd h Bool.false_ne_true
    · rw [if_neg h115] at h
      by_cases h98 : t = 98
      · rw [if_pos h98] at h
        subst h98
        cases v with
        | vBlob bb =>
          refine Or.inr (Or.inr ⟨bb, rfl, rfl, ?_, ?_⟩)
          · simp only [Bool.and_eq_true, List.all_eq_true, decide_eq_true_eq] at h
            exact h.1
          · simp only [Bool.and_eq_true, List.all_eq_true, decide_eq_true_eq] at h
            exact h.2
        | vInt n => exact absurd h Bool.false_ne_true
        | vFloat bs => exact absurd h Bool.false_ne_true
        | vStr bs => exact absurd h Bool.false_ne_true
        | vBool b => exact absurd h Bool.false_ne_true
        | vNull => exact absurd h Bool.false_ne_true
        | vBig n => exact absurd h Bool.false_ne_true
      · rw [if_neg h98] at h
        exact absurd h Bool.false_ne_true

theorem argOK_encodes (a : Nat × OscVal) (h : argOK a = true) :
    encodeArg a = .ok (encodedOf a) := by
  obtain ⟨t, v⟩ := a
  rcases argOK_cases t v h with ⟨n, rfl, rfl, h1, h2⟩ | ⟨sb, rfl, rfl, hsb⟩ |
    ⟨bb, rfl, rfl, hbb, hlb⟩
  · exact encodeArg_ok_of_isOk _ (by rw [encodeArg_int n h1 h2]; rfl)
  · exact encodeArg_ok_of_isOk _ rfl
  · exact encodeArg_ok_of_isOk _ rfl

theorem encodedOf_int (n : Int) (h1 : -2147483648 ≤ n) (h2 : n ≤ 2147483647) :
    encodedOf (105, OscVal.vInt n) = i32Bytes n :=
  encodedOf_eq _ _ (encodeArg_int n h1 h2)

theorem encodedOf_str (sb : List Nat) :
    encodedOf (115, OscVal.vStr sb) = strBlock sb := rfl

theorem encodedOf_blob (bb : List Nat) :
    encodedOf (98, OscVal.vBlob bb) =
      i32Bytes bb.length ++ bb.map (· % 256) ++
        zeros (pad4 bb.length - bb.length) := rfl

theorem pad4_le (m : Nat) : m ≤ pad4 m := by
  unfold pad4
  omega

theorem pad4_succ_gt (m : Nat) : m < pad4 (m + 1) := by
  unfold pad4
  omega

theorem pad4_mod (m : Nat) : pad4 m % 4 = 0 := by
  unfold pad4
  omega

theorem pad4_shift (A k : Nat) (hA : A % 4 = 0) : pad4 (A + k) = A + pad4 k := by
  unfold pad4
  omega

theorem pad4I_coe (m : Nat) : pad4I (m : Int) = ((pad4 m : Nat) : Int) := rfl

theorem cast_add_one (X : Nat) : (X : Int) + 1 = ((X + 1 : Nat) : Int) := by
  omega

theorem zeros_succ (n : Nat) : zeros (n + 1) = 0 :: zeros n := rfl

theorem strBlock_length (s : List Nat) :
    (strBlock s).length = pad4 (s.length + 1) := by
  simp only [strBlock, List.length_append, List.length_map, zeros,
    List.length_replicate]
  unfold pad4
  omega

theorem map_mod_id (l : List Nat) (h : ∀ c ∈ l, c < 256) :
    l.map (· % 256) = l := by
  induction l with
  | nil => rfl
  | cons a t ih =>
    simp only [List.map_cons, Nat.mod_eq_of_lt (h a (List.mem_cons_self a t)),
      ih (fun x hx => h x (List.mem_cons_of_mem a hx))]

theorem findIdx_append_zero : ∀ (mid rest : List Nat) (i : Nat),
    (∀ c ∈ mid, c % 256 ≠ 0) →
    (mid ++ 0 :: rest).findIdx? (fun b => b % 256 == 0) i = some (i + mid.length)
  | [], rest, i, _ => by
    simp only [List.nil_append, List.findIdx?_cons, List.length_nil, Nat.add_zero]
    rw [if_pos (by decide)]
  | c :: t, rest, i, hmid => by
    simp only [List.cons_append, List.findIdx?_cons]
    rw [if_neg (by simp [hmid c (List.mem_cons_self c t)]),
      findIdx_append_zero t rest (i + 1)
        (fun x hx => hmid x (List.mem_cons_of_mem c hx))]
    congr 1
    simp only [List.length_cons]
    omega

/-- The first NUL after a prefix of nonzero bytes. -/
theorem jsBufIndexOf_pre (pre mid rest : List Nat)
    (hmid : ∀ c ∈ mid, c % 256 ≠ 0) :
    jsBufIndexOf (pre ++ (mid ++ 0 :: rest)) 0 (pre.length : Int) =
      ((pre.length + mid.length : Nat) : Int) := by
  unfold jsBufIndexOf
  rw [if_neg (by
    simp only [List.length_append, List.length_cons]
    push_cast
    omega)]
  rw [if_neg (by omega), Int.toNat_natCast]
  dsimp only
  rw [List.drop_left, findIdx_append_zero mid rest 0 hmid]
  show ((pre.length + (0 + mid.length) : Nat) : Int) =
    ((pre.length + mid.length : Nat) : Int)
  push_cast
  omega

theorem map_mod128_id (l : List Nat) (h : ∀ c ∈ l, c < 128) :
    l.map (· % 128) = l := by
  induction l with
  | nil => rfl
  | cons a t ih =>
    simp only [List.map_cons, Nat.mod_eq_of_lt (h a (List.mem_cons_self a t)),
      ih (fun x hx => h x (List.mem_cons_of_mem a hx))]

/-- `toString('ascii')` over an interior segment whose bytes have the
high bit clear. -/
theorem jsToStringAscii_mid (pre mid post : List Nat)
    (hmid : ∀ c ∈ mid, c < 128) :
    jsToStringAscii (pre ++ (mid ++ post)) (pre.length : Int)
      ((pre.length + mid.length : Nat) : Int) = mid := by
  have hs : (if (pre.length : Int) ≤ 0 then 0 else (pre.length : Int)) =
      (pre.length : Int) := by
    split <;> omega
  have he : (if ((pre ++ (mid ++ post)).length : Int) <
        ((pre.length + mid.length : Nat) : Int) then
        ((pre ++ (mid ++ post)).length : Int)
      else ((pre.length + mid.length : Nat) : Int)) =
      ((pre.length + mid.length : Nat) : Int) := by
    rw [if_neg (by simp only [List.length_append]; push_cast; omega)]
  simp only [jsToStringAscii]
  rw [hs, he]
  cases mid with
  | nil =>
    rw [if_pos (by simp only [List.length_nil]; omega)]
  | cons m0 mt =>
    rw [if_neg (by simp only [List.length_cons]; push_cast; omega)]
    rw [show ((pre.length + (m0 :: mt).length : Nat) : Int) - (pre.length : Int) =
      (((m0 :: mt).length : Nat) : Int) from by push_cast; omega]
    rw [Int.toNat_natCast, Int.toNat_natCast, List.drop_left, List.take_left]
    exact map_mod128_id _ hmid

/-- `slice` of an interior segment. -/
theorem jsSlice_mid (pre mid post : List Nat) :
    jsSlice (pre ++ (mid ++ post)) (pre.length : Int)
      ((pre.length + mid.length : Nat) : Int) = mid := by
  have hs : (if (pre.length : Int) < 0 then
      max (((pre ++ (mid ++ post)).length : Int) + (pre.length : Int)) 0
      else min (pre.length : Int) (((pre ++ (mid ++ post)).length : Int))) =
      (pre.length : Int) := by
    rw [if_neg (by omega)]
    exact min_eq_left (by simp only [List.length_append]; push_cast; omega)
  have he : (if ((pre.length + mid.length : Nat) : Int) < 0 then
      max (((pre ++ (mid ++ post)).length : Int) +
        ((pre.length + mid.length : Nat) : Int)) 0
      else min ((pre.length + mid.length : Nat) : Int)
        (((pre ++ (mid ++ post)).length : Int))) =
      ((pre.length + mid.length : Nat) : Int) := by
    rw [if_neg (by omega)]
    exact min_eq_left (by simp only [List.length_append]; push_cast; omega)
  simp only [jsSlice]
  rw [hs, he]
  cases mid with
  | nil =>
    rw [if_pos (by simp only [List.length_nil]; omega)]
  | cons m0 mt =>
    rw [if_neg (by simp only [List.length_cons]; push_cast; omega)]
    rw [show ((pre.length + (m0 :: mt).length : Nat) : Int) - (pre.length : Int) =
      (((m0 :: mt).length : Nat) : Int) from by push_cast; omega]
    rw [Int.toNat_natCast, Int.toNat_natCast, List.drop_left, List.take_left]

/-- The decoder loop inverts the encoder: parsing the encoded argument
area of well-formed `i`/`s`/`b` arguments, starting at the 4-aligned end
of any prefix, yields exactly the original values. -/
theorem parseLoop_encoded : ∀ (args : List (Nat × OscVal)) (pre : List Nat)
    (acc : List OscVal),
    (∀ a ∈ args, argOK a = true) → pre.length % 4 = 0 →
    parseLoop (pre ++ (args.map encodedOf).flatten) (args.map Prod.fst)
      (pre.length : Int) acc = .ok (acc.reverse ++ args.map Prod.snd)
  | [], pre, acc, _, _ => by
    simp only [List.map_nil, List.flatten_nil, List.append_nil, parseLoop]
  | (t, v) :: args, pre, acc, hok, hpre => by
    rcases argOK_cases t v (hok (t, v) (List.mem_cons_self _ _)) with
      ⟨n, rfl, rfl, h1, h2⟩ | ⟨sb, rfl, rfl, hsb⟩ | ⟨bb, rfl, rfl, hbb, hlb⟩
    · simp only [List.map_cons, List.flatten_cons, encodedOf_int n h1 h2]
      simp only [parseLoop]
      rw [if_neg (by
        simp only [List.length_append, i32Bytes_length]
        push_cast
        omega)]
      rw [if_pos trivial]
      simp only [readInt32BE_i32Bytes pre ((args.map encodedOf).flatten) n h1 h2]
      have ih := parseLoop_encoded args (pre ++ i32Bytes n) (OscVal.vInt n :: acc)
        (fun a ha => hok a (List.mem_cons_of_mem _ ha))
        (by simp only [List.length_append, i32Bytes_length]; omega)
      rw [List.append_assoc] at ih
      rw [show ((pre ++ i32Bytes n).length : Int) = (pre.length : Int) + 4 from by
        simp only [List.length_append, i32Bytes_length]
        push_cast
        omega] at ih
      rw [ih]
      simp only [List.reverse_cons, List.append_assoc, List.singleton_append]
    · have henc : encodedOf (115, OscVal.vStr sb) =
          sb ++ 0 :: zeros (pad4 (sb.length + 1) - sb.length - 1) := by
        rw [encodedOf_str, strBlock,
          map_mod_id sb (fun c hc => by have := (hsb c hc).2; omega)]
        obtain ⟨Z, hZ⟩ : ∃ Z, pad4 (sb.length + 1) - sb.length = Z + 1 :=
          ⟨pad4 (sb.length + 1) - sb.length - 1, by
            have := pad4_succ_gt sb.length
            omega⟩
        rw [hZ, Nat.add_sub_cancel, zeros_succ]
      simp only [List.map_cons, List.flatten_cons, henc]
      rw [List.append_assoc sb, List.cons_append]
      simp only [parseLoop]
      rw [if_neg (by
        simp only [List.length_append, List.length_cons]
        push_cast
        omega)]
      rw [if_neg (by decide), if_neg (by decide), if_pos trivial]
      rw [jsBufIndexOf_pre pre sb
        (zeros (pad4 (sb.length + 1) - sb.length - 1) ++ (args.map encodedOf).flatten)
        (fun c hc => by have := hsb c hc; omega)]
      rw [jsToStringAscii_mid pre sb
        (0 :: (zeros (pad4 (sb.length + 1) - sb.length - 1) ++
          (args.map encodedOf).flatten))
        (fun c hc => (hsb c hc).2)]
      rw [cast_add_one (pre.length + sb.length), pad4I_coe]
      have hplen : pad4 (pre.length + sb.length + 1) =
          (pre ++ (sb ++ 0 :: zeros (pad4 (sb.length + 1) - sb.length - 1))).length := by
        simp only [List.length_append, List.length_cons, zeros,
          List.length_replicate]
        rw [show pre.length + sb.length + 1 = pre.length + (sb.length + 1) from by
          omega, pad4_shift _ _ hpre]
        have := pad4_succ_gt sb.length
        omega
      rw [hplen]
      have ih := parseLoop_encoded args
        (pre ++ (sb ++ 0 :: zeros (pad4 (sb.length + 1) - sb.length - 1)))
        (OscVal.vStr sb :: acc)
        (fun a ha => hok a (List.mem_cons_of_mem _ ha))
        (by rw [← hplen]; exact pad4_mod _)
      rw [List.append_assoc, List.append_assoc sb, List.cons_append] at ih
      rw [ih]
      simp only [List.reverse_cons, List.append_assoc, List.singleton_append]
    · have henc := encodedOf_blob bb
      rw [map_mod_id bb hbb] at henc
      simp only [List.map_cons, List.flatten_cons, henc]
      rw [List.append_assoc (i32Bytes (bb.length : Int) ++ bb),
        List.append_assoc (i32Bytes (bb.length : Int))]
      simp only [parseLoop]
      rw [if_neg (by
        simp only [List.length_append, i32Bytes_length]
        push_cast
        omega)]
      rw [if_neg (by decide), if_neg (by decide), if_neg (by decide), if_pos trivial]
      simp only [readInt32BE_i32Bytes pre
        (bb ++ (zeros (pad4 bb.length - bb.length) ++ (args.map encodedOf).flatten))
        (bb.length : Int) (by omega) (by omega)]
      rw [← List.append_assoc pre (i32Bytes (bb.length : Int))]
      rw [show (pre.length : Int) + 4 =
          (((pre ++ i32Bytes (bb.length : Int)).length : Nat) : Int) from by
        simp only [List.length_append, i32Bytes_length]
        push_cast
        omega]
      rw [show (((pre ++ i32Bytes (bb.length : Int)).length : Nat) : Int) +
          (bb.length : Int) =
          (((pre ++ i32Bytes (bb.length : Int)).length + bb.length : Nat) : Int) from by
        push_cast
        omega]
      rw [jsSlice_mid (pre ++ i32Bytes (bb.length : Int)) bb
        (zeros (pad4 bb.length - bb.length) ++ (args.map encodedOf).flatten)]
      rw [pad4I_coe]
      have hplen : pad4 ((pre ++ i32Bytes (bb.length : Int)).length + bb.length) =
          ((pre ++ i32Bytes (bb.length : Int)) ++
            (bb ++ zeros (pad4 bb.length - bb.length))).length := by
        simp only [List.length_append, i32Bytes_length, zeros,
          List.length_replicate]
        rw [pad4_shift (pre.length + 4) bb.length (by omega)]
        have := pad4_le bb.length
        omega
      rw [hplen]
      have ih := parseLoop_encoded args
        ((pre ++ i32Bytes (bb.length : Int)) ++
          (bb ++ zeros (pad4 bb.length - bb.length)))
        (OscVal.vBlob bb :: acc)
        (fun a ha => hok a (List.mem_cons_of_mem _ ha))
        (by rw [← hplen]; exact pad4_mod _)
      rw [List.append_assoc (pre ++ i32Bytes (bb.length : Int)),
        List.append_assoc bb] at ih
      rw [ih]
      simp only [List.reverse_cons, List.append_assoc, List.singleton_append]

theorem strBlock_eq (s : List Nat) (h : ∀ c ∈ s, c < 256) :
    strBlock s = s ++ 0 :: zeros (pad4 (s.length + 1) - s.length - 1) := by
  rw [strBlock, map_mod_id s h]
  obtain ⟨Z, hZ⟩ : ∃ Z, pad4 (s.length + 1) - s.length = Z + 1 :=
    ⟨pad4 (s.length + 1) - s.length - 1, by
      have := pad4_succ_gt s.length
      omega⟩
  rw [hZ, Nat.add_sub_cancel, zeros_succ]

/-- C1, counterexample to the claim as stated: `t` and trailing `N`
arguments are supported by the encoder (the build succeeds) but are lost
by the decoder — the `t` tag has no case in `_parseOscArgs` (the 8
timetag bytes are not even skipped), and an `N` whose tag is processed
when the offset already sits at the buffer end is dropped by the length
guard — so decoding the encoded message yields `[]` instead of the
original one-element argument lists. -/
theorem oscRoundTrip_counterexample :
    buildOSCMessage (strBytes "/t") [(116, OscVal.vBig 1)] =
      .ok [47, 116, 0, 0, 44, 116, 0, 0, 0, 0, 0, 0, 0, 0, 0, 1] ∧
    jsBufIndexOf [47, 116, 0, 0, 44, 116, 0, 0, 0, 0, 0, 0, 0, 0, 0, 1] 0 0 = 2 ∧
    parseOscArgs [47, 116, 0, 0, 44, 116, 0, 0, 0, 0, 0, 0, 0, 0, 0, 1] 2 =
      .ok [] ∧
    buildOSCMessage (strBytes "/t") [(78, OscVal.vNull)] =
      .ok [47, 116, 0, 0, 44, 78, 0, 0] ∧
    parseOscArgs [47, 116, 0, 0, 44, 78, 0, 0] 2 = .ok [] :=
  ⟨rfl, rfl, rfl, rfl, rfl⟩

/-- C1, amended: for every nonempty address of non-NUL ASCII bytes and
every argument list built from in-range `i`, NUL-free ASCII `s` and
byte-valued `b` arguments, the encoder succeeds and the decode path of
`_handleMessage` (address up to the first NUL via `indexOf`/`toString`,
arguments via `_parseOscArgs`) recovers the address bytes and exactly the
original argument values; `t` arguments and trailing `N`/`T`/`F`
arguments are excluded because the decoder drops them (see the
counterexample). -/
theorem oscRoundTrip_amended (address : List Nat) (args : List (Nat × OscVal))
    (haddr1 : address ≠ []) (haddr2 : ∀ c ∈ address, 0 < c ∧ c < 128)
    (hargs : ∀ a ∈ args, argOK a = true) :
    ∃ B, buildOSCMessage address args = .ok B ∧
      jsBufIndexOf B 0 0 = (address.length : Int) ∧
      jsToStringAscii B 0 (jsBufIndexOf B 0 0) = address ∧
      parseOscArgs B (jsBufIndexOf B 0 0).toNat = .ok (args.map Prod.snd) := by
  have htag : ∀ c ∈ args.map Prod.fst, c = 105 ∨ c = 115 ∨ c = 98 := by
    intro c hc
    obtain ⟨a, ha, rfl⟩ := List.mem_map.mp hc
    obtain ⟨t, v⟩ := a
    rcases argOK_cases t v (hargs (t, v) ha) with ⟨n, rfl, _, _, _⟩ |
      ⟨sb, rfl, _, _⟩ | ⟨bb, rfl, _, _, _⟩
    · exact Or.inl rfl
    · exact Or.inr (Or.inl rfl)
    · exact Or.inr (Or.inr rfl)
  have htagmod : ∀ c ∈ 44 :: args.map Prod.fst, c % 256 ≠ 0 := by
    intro c hc
    rcases List.mem_cons.mp hc with rfl | hc2
    · decide
    · rcases htag c hc2 with rfl | rfl | rfl <;> decide
  have htag128 : ∀ c ∈ args.map Prod.fst, c < 128 := by
    intro c hc
    rcases htag c hc with rfl | rfl | rfl <;> decide
  have htag256 : ∀ c ∈ 44 :: args.map Prod.fst, c < 256 := by
    intro c hc
    rcases List.mem_cons.mp hc with rfl | hc2
    · decide
    · rcases htag c hc2 with rfl | rfl | rfl <;> decide
  have haddr256 : ∀ c ∈ address, c < 256 := fun c hc => by
    have := (haddr2 c hc).2
    omega
  have hadmod : ∀ c ∈ address, c % 256 ≠ 0 := fun c hc => by
    have := haddr2 c hc
    omega
  have hB : buildOSCMessage address args = .ok (strBlock address ++
      strBlock (44 :: args.map Prod.fst) ++ (args.map encodedOf).flatten) := by
    unfold buildOSCMessage
    rw [mapM_ok encodeArg encodedOf args (fun a ha => argOK_encodes a (hargs a ha))]
    rfl
  have hBN : strBlock address ++ strBlock (44 :: args.map Prod.fst) ++
      (args.map encodedOf).flatten =
      address ++ 0 :: (zeros (pad4 (address.length + 1) - address.length - 1) ++
        44 :: (args.map Prod.fst ++ 0 ::
          (zeros (pad4 ((44 :: args.map Prod.fst).length + 1) -
            (44 :: args.map Prod.fst).length - 1) ++
            (args.map encodedOf).flatten))) := by
    rw [strBlock_eq address haddr256, strBlock_eq (44 :: args.map Prod.fst) htag256]
    simp only [List.append_assoc, List.cons_append]
  have hIdx := jsBufIndexOf_pre [] address
    ((zeros (pad4 (address.length + 1) - address.length - 1) ++
      44 :: (args.map Prod.fst ++ 0 ::
        (zeros (pad4 ((44 :: args.map Prod.fst).length + 1) -
          (44 :: args.map Prod.fst).length - 1) ++
          (args.map encodedOf).flatten)))) hadmod
  simp only [List.nil_append, List.length_nil, Nat.cast_zero, Nat.zero_add] at hIdx
  refine ⟨strBlock address ++ strBlock (44 :: args.map Prod.fst) ++
    (args.map encodedOf).flatten, hB, ?_, ?_, ?_⟩
  · rw [hBN]
    exact hIdx
  · rw [hBN, hIdx]
    have hAsc := jsToStringAscii_mid [] address
      (0 :: (zeros (pad4 (address.length + 1) - address.length - 1) ++
        44 :: (args.map Prod.fst ++ 0 ::
          (zeros (pad4 ((44 :: args.map Prod.fst).length + 1) -
            (44 :: args.map Prod.fst).length - 1) ++
            (args.map encodedOf).flatten))))
      (fun c hc => (haddr2 c hc).2)
    simp only [List.nil_append, List.length_nil, Nat.cast_zero, Nat.zero_add] at hAsc
    exact hAsc
  · rw [hBN, hIdx, Int.toNat_natCast]
    unfold parseOscArgs
    have hA := pad4_succ_gt address.length
    have hT := pad4_succ_gt (44 :: args.map Prod.fst).length
    rw [if_neg (by
      simp only [List.length_append, List.length_cons, zeros, List.length_replicate]
      omega)]
    have hlenpre2 : (address ++ 0 :: zeros (pad4 (address.length + 1) -
        address.length - 1)).length = pad4 (address.length + 1) := by
      simp only [List.length_append, List.length_cons, zeros, List.length_replicate]
      omega
    have hIdx2 := jsBufIndexOf_pre
      (address ++ 0 :: zeros (pad4 (address.length + 1) - address.length - 1))
      (44 :: args.map Prod.fst)
      (zeros (pad4 ((44 :: args.map Prod.fst).length + 1) -
        (44 :: args.map Prod.fst).length - 1) ++ (args.map encodedOf).flatten)
      htagmod
    rw [hlenpre2] at hIdx2
    simp only [List.append_assoc, List.cons_append] at hIdx2
    rw [hIdx2]
    rw [if_neg (by omega)]
    rw [show pad4 (address.length + 1) + (44 :: args.map Prod.fst).length =
      pad4 (address.length + 1) + 1 + (args.map Prod.fst).length from by
      simp only [List.length_cons]
      omega]
    have hlenpre3 : (address ++ 0 :: (zeros (pad4 (address.length + 1) -
        address.length - 1) ++ [44])).length = pad4 (address.length + 1) + 1 := by
      simp only [List.length_append, List.length_cons, zeros,
        List.length_replicate, List.length_nil]
      omega
    have hAsc2 := jsToStringAscii_mid
      (address ++ 0 :: (zeros (pad4 (address.length + 1) - address.length - 1) ++ [44]))
      (args.map Prod.fst)
      (0 :: (zeros (pad4 ((44 :: args.map Prod.fst).length + 1) -
        (44 :: args.map Prod.fst).length - 1) ++ (args.map encodedOf).flatten))
      htag128
    rw [hlenpre3] at hAsc2
    simp only [List.append_assoc, List.cons_append, List.nil_append] at hAsc2
    rw [cast_add_one (pad4 (address.length + 1)), hAsc2]
    rw [cast_add_one (pad4 (address.length + 1) + 1 + (args.map Prod.fst).length),
      pad4I_coe]
    have hloop := parseLoop_encoded args
      (strBlock address ++ strBlock (44 :: args.map Prod.fst)) []
      hargs
      (by
        simp only [List.length_append, strBlock_length]
        have := pad4_mod (address.length + 1)
        have := pad4_mod ((44 :: args.map Prod.fst).length + 1)
        omega)
    have hoff2 : (strBlock address ++ strBlock (44 :: args.map Prod.fst)).length =
        pad4 (pad4 (address.length + 1) + 1 + (args.map Prod.fst).length + 1) := by
      simp only [List.length_append, strBlock_length, List.length_cons]
      rw [show pad4 (address.length + 1) + 1 + (args.map Prod.fst).length + 1 =
        pad4 (address.length + 1) + ((args.map Prod.fst).length + 1 + 1) from by
        omega, pad4_shift _ _ (pad4_mod _)]
    rw [hoff2] at hloop
    rw [strBlock_eq address haddr256, strBlock_eq (44 :: args.map Prod.fst) htag256]
      at hloop
    simp only [List.append_assoc, List.cons_append] at hloop
    rw [hloop]
    simp only [List.reverse_nil, List.nil_append]

/-- Witness for `oscRoundTrip_amended`: address `/ab` with a negative
int32, an ASCII string, a three-byte blob and a trailing int32 all
round-trip. -/
theorem oscRoundTrip_amended_witness :
    ∃ B, buildOSCMessage [47, 97, 98]
        [(105, OscVal.vInt (-5)), (115, OscVal.vStr [104, 105]),
          (98, OscVal.vBlob [1, 2, 3]), (105, OscVal.vInt 7)] = .ok B ∧
      jsBufIndexOf B 0 0 = (3 : Int) ∧
      jsToStringAscii B 0 (jsBufIndexOf B 0 0) = [47, 97, 98] ∧
      parseOscArgs B (jsBufIndexOf B 0 0).toNat =
        .ok [OscVal.vInt (-5), OscVal.vStr [104, 105],
          OscVal.vBlob [1, 2, 3], OscVal.vInt 7] :=
  oscRoundTrip_amended [47, 97, 98]
    [(105, OscVal.vInt (-5)), (115, OscVal.vStr [104, 105]),
      (98, OscVal.vBlob [1, 2, 3]), (105, OscVal.vInt 7)]
    (by decide) (by decide) (by decide)

end Aoo
